import Mathlib

/-!
# oap-mllib native layer: communicator bootstrap and regression reduction

A shallow embedding of `OneCCL.cpp` and `LinearRegressionDALImpl.cpp`.

* C `int` / `jint` values are integers in the 32-bit range (`CInt`), `size_t`
  values are naturals taken modulo `2^64`, `in_port_t` values are naturals
  taken modulo `2^16`.
* The oneDAL solver (local step, archive codec, master step) and the oneCCL
  library are external collaborators; they enter as records of functions.
* A call that does not return (an exception such as `std::bad_alloc`, or an
  access outside a buffer) has the result `none`.
* Process-wide variables (`g_comms`, `comm_size`, `rank_id`,
  `local_host_ips`) are passed explicitly as a state record.
-/

set_option autoImplicit false
set_option linter.unusedVariables false

namespace OapMllib

/-! ## Machine integers -/

/-- Number of values of a `size_t` (64-bit). -/
def SIZE_MOD : Nat := 2 ^ 64

/-- Number of values of an `in_port_t` (16-bit). -/
def PORT_MOD : Nat := 2 ^ 16

/-- Values of the C type `int` and of the JNI type `jint`. -/
abbrev CInt := { x : Int // -2147483648 ≤ x ∧ x < 2147483648 }

/-- Conversion of a signed integer to `size_t`: reduction modulo `2^64`. -/
def toSizeT (x : Int) : Nat := (x % (SIZE_MOD : Int)).toNat

/-- Conversion of a `size_t` to `int` (two's complement, 32 bits). -/
def sizeToInt (n : Nat) : Int :=
  if n % 4294967296 < 2147483648 then ((n % 4294967296 : Nat) : Int)
  else ((n % 4294967296 : Nat) : Int) - 4294967296

/-- Conversion of a `size_t` to `jlong` (two's complement, 64 bits). -/
def sizeToJlong (n : Nat) : Int :=
  if n % SIZE_MOD < 2 ^ 63 then ((n % SIZE_MOD : Nat) : Int)
  else ((n % SIZE_MOD : Nat) : Int) - (SIZE_MOD : Int)

/-- Product of two `size_t` values. -/
def sizeMul (a b : Nat) : Nat := (a * b) % SIZE_MOD

/-! ## Communicator and the root rank -/

/-- A `ccl::communicator`, as far as this code observes it: `size()` and
`rank()`, both of C type `int`. -/
structure Communicator where
  size : CInt
  rank : CInt
deriving DecidableEq

/-- Modelled from the spec: `ccl_root` is declared in `OneCCL.h`, which is not
among the sources; the spec fixes the root as rank 0. -/
def ccl_root : Int := 0

/-! ## Bytes, buffers and the gather -/

/-- The element type `byte` of archives and gather buffers. -/
abbrev byte := Nat

/-- A heap array obtained from `new byte[n]`: its size `n` and the bytes found
at each offset from its first element.  Only offsets below `size` belong to the
array. -/
structure HeapBytes where
  size : Nat
  bytes : Nat → byte

/-- Store `buf` at offsets `off, off+1, ...` of `a`. -/
def HeapBytes.writeAt (a : HeapBytes) (off : Nat) (buf : List byte) : HeapBytes :=
  { size := a.size
    bytes := fun p => if off ≤ p ∧ p < off + buf.length then buf.getD (p - off) 0 else a.bytes p }

/-- The `len` bytes found at offsets `off, ..., off+len-1` of `a`: what an
`OutputDataArchive(ptr + off, len)` reads. -/
def HeapBytes.readSpan (a : HeapBytes) (off len : Nat) : List byte :=
  (List.range len).map (fun j => a.bytes (off + j))

/-- What surrounds one rank during a compute call: the `(rank, send buffer)`
pairs of the peers whose data reaches the root before, respectively after,
this rank's own buffer; the content of freshly allocated (uninitialised)
memory; and the size of the largest array the heap can still provide. -/
structure RankEnv where
  before : List (Nat × List byte)
  after : List (Nat × List byte)
  uninit : Nat → byte
  heapAvail : Nat

/-- The largest size of an object (`PTRDIFF_MAX` on a 64-bit target). -/
def PTRDIFF_MAX : Nat := 2 ^ 63 - 1

/-- The expression `new byte[n]`: a fresh array of `n` uninitialised bytes, or
`none` when it throws `std::bad_alloc` because the heap cannot provide `n`
bytes. -/
def newBytes (net : RankEnv) (n : Nat) : Option HeapBytes :=
  if n ≤ net.heapAvail ∧ n ≤ PTRDIFF_MAX then some { size := n, bytes := net.uninit }
  else none

/-- Placement of the received buffers by the root of a gather: the buffer of
rank `k` is stored at offset `recv_count * k`, in the order of arrival. -/
def gatherStore (recv_count : Nat) (arrivals : List (Nat × List byte)) (recv : HeapBytes) :
    HeapBytes :=
  arrivals.foldl (fun m c => m.writeAt (recv_count * c.1) c.2) recv

/-- The contributions to one gather in their order of arrival at the root:
those of the peers, and among them the `send_count` bytes sent by the calling
rank itself. -/
def gatherArrivals (net : RankEnv) (comm : Communicator) (send : List byte)
    (send_count : Nat) : List (Nat × List byte) :=
  net.before ++ (comm.rank.val.toNat, send.take send_count) :: net.after

/-- The call `ccl::gather(send, send_count, recv, recv_count, comm).wait()`:
on the root (rank 0) the receive buffer is filled with every rank's send
buffer, rank `k` at slot `k`; on any other rank the receive buffer is left
alone.  The collective is taken to complete: the contributions listed in
`net` do arrive.  The result is `none` when a received buffer would be stored
outside the receive buffer, which the program gives no meaning to. -/
def ccl_gather (net : RankEnv) (send : List byte) (send_count : Nat) (recv : HeapBytes)
    (recv_count : Nat) (comm : Communicator) : Option HeapBytes :=
  if comm.rank.val = 0 then
    if ∀ c ∈ gatherArrivals net comm send send_count,
        recv_count * c.1 + c.2.length ≤ recv.size then
      some (gatherStore recv_count (gatherArrivals net comm send send_count) recv)
    else none
  else some recv

/-! ## The oneDAL solver -/

/-- The oneDAL distributed regression algorithm of one model family.
`Table` stands for `NumericTablePtr` targets, `PR` for `PartialResult`. -/
structure Solver (Table PR : Type) where
  /-- `Distributed<step1Local>`: `input.set(data)`, `input.set(dependentVariables)`,
  `compute()`, `getPartialResult()`. -/
  localCompute : Table → Table → PR
  /-- `serialize` into an `InputDataArchive` followed by `copyArchiveToArray`. -/
  serialize : PR → List byte
  /-- `deserialize` from an `OutputDataArchive` over the given bytes. -/
  deserialize : List byte → PR
  /-- `Distributed<step2Master>`: the partial results given to `input.add`, in
  that order, then `compute()`, `finalizeCompute()`, `getResult()`, `getBeta()`. -/
  masterCompute : List PR → Table

/-- The partial results handed to `masterAlgorithm.input.add` by the loop
`for (size_t i = 0; i < nBlocks; i++)`, each decoded from the span of
`perNodeArchLength` bytes at `serializedData.get() + perNodeArchLength * i`.
The result is `none` when one of these spans reaches outside the array. -/
def masterInputs {Table PR : Type} (S : Solver Table PR) (serializedData : HeapBytes)
    (perNodeArchLength nBlocks : Nat) : Option (List PR) :=
  if ∀ i < nBlocks, sizeMul perNodeArchLength i + perNodeArchLength ≤ serializedData.size then
    some ((List.range nBlocks).map (fun i =>
      S.deserialize (serializedData.readSpan (sizeMul perNodeArchLength i) perNodeArchLength)))
  else none

/-- The function `linearregression_compute`.  A returned value is the
`NumericTablePtr` (`none` for the empty pointer).  The result is `none` when
the function does not return: `new byte[..]` throws `std::bad_alloc`, or a
buffer is accessed outside its bounds.  The vector `aReceiveCount` is never
used and is left out. -/
def linearregression_compute {Table PR : Type} (S : Solver Table PR) (net : RankEnv)
    (rankId : Int) (comm : Communicator) (pData pLabel : Table) (nBlocks : Nat) :
    Option (Option Table) :=
  let dataArch := S.serialize (S.localCompute pData pLabel)
  let perNodeArchLength := dataArch.length
  match newBytes net (sizeMul perNodeArchLength nBlocks) with
  | none => none
  | some serializedData =>
    match newBytes net perNodeArchLength with
    | none => none
    | some _ =>
      let nodeResults := dataArch.take perNodeArchLength
      match ccl_gather net nodeResults perNodeArchLength serializedData perNodeArchLength
          comm with
      | none => none
      | some gathered =>
        if rankId = ccl_root then
          match masterInputs S gathered perNodeArchLength nBlocks with
          | none => none
          | some partials => some (some (S.masterCompute partials))
        else some none

/-- The function `ridgeregression_compute`: the same reduction over the ridge
regression solver. -/
def ridgeregression_compute {Table PR : Type} (S : Solver Table PR) (net : RankEnv)
    (rankId : Int) (comm : Communicator) (pData pLabel : Table) (nBlocks : Nat) :
    Option (Option Table) :=
  let dataArch := S.serialize (S.localCompute pData pLabel)
  let perNodeArchLength := dataArch.length
  match newBytes net (sizeMul perNodeArchLength nBlocks) with
  | none => none
  | some serializedData =>
    match newBytes net perNodeArchLength with
    | none => none
    | some _ =>
      let nodeResults := dataArch.take perNodeArchLength
      match ccl_gather net nodeResults perNodeArchLength serializedData perNodeArchLength
          comm with
      | none => none
      | some gathered =>
        if rankId = ccl_root then
          match masterInputs S gathered perNodeArchLength nBlocks with
          | none => none
          | some partials => some (some (S.masterCompute partials))
        else some none

/-- The conditions under which a compute function returns on a rank: its two
byte arrays can be allocated, on the gather's root every received buffer is
stored inside the receive buffer, and on the rank that merges every decoded
span lies inside the receive buffer. -/
def computeDefined {Table PR : Type} (S : Solver Table PR) (net : RankEnv)
    (rankId : Int) (comm : Communicator) (pData pLabel : Table) (nBlocks : Nat) : Prop :=
  (sizeMul (S.serialize (S.localCompute pData pLabel)).length nBlocks ≤ net.heapAvail ∧
    sizeMul (S.serialize (S.localCompute pData pLabel)).length nBlocks ≤ PTRDIFF_MAX) ∧
  ((S.serialize (S.localCompute pData pLabel)).length ≤ net.heapAvail ∧
    (S.serialize (S.localCompute pData pLabel)).length ≤ PTRDIFF_MAX) ∧
  (comm.rank.val = 0 →
    ∀ c ∈ gatherArrivals net comm (S.serialize (S.localCompute pData pLabel))
        (S.serialize (S.localCompute pData pLabel)).length,
      (S.serialize (S.localCompute pData pLabel)).length * c.1 + c.2.length ≤
        sizeMul (S.serialize (S.localCompute pData pLabel)).length nBlocks) ∧
  (rankId = ccl_root →
    ∀ i < nBlocks,
      sizeMul (S.serialize (S.localCompute pData pLabel)).length i +
          (S.serialize (S.localCompute pData pLabel)).length ≤
        sizeMul (S.serialize (S.localCompute pData pLabel)).length nBlocks)

instance {Table PR : Type} (S : Solver Table PR) (net : RankEnv) (rankId : Int)
    (comm : Communicator) (pData pLabel : Table) (nBlocks : Nat) :
    Decidable (computeDefined S net rankId comm pData pLabel nBlocks) := by
  unfold computeDefined
  infer_instance

/-- The bytes of slot `i` of the receive buffer after a gather of `N` buffers
of length `L`: the buffer of rank `i` for `i < N`, and bytes that no rank has
sent beyond. -/
def slotAfterGather (net : RankEnv) (L N : Nat) (bufs : Nat → List byte) (i : Nat) :
    List byte :=
  if i < N then bufs i else (List.range L).map (fun j => net.uninit (L * i + j))

/-- The receive buffer of a compute function once the gather has completed:
filled by `gatherStore` on the gather's root, as allocated elsewhere. -/
def receivedBytes {Table PR : Type} (S : Solver Table PR) (net : RankEnv)
    (comm : Communicator) (pData pLabel : Table) (nBlocks : Nat) : HeapBytes :=
  if comm.rank.val = 0 then
    gatherStore (S.serialize (S.localCompute pData pLabel)).length
      (gatherArrivals net comm (S.serialize (S.localCompute pData pLabel))
        (S.serialize (S.localCompute pData pLabel)).length)
      { size := sizeMul (S.serialize (S.localCompute pData pLabel)).length nBlocks
        bytes := net.uninit }
  else
    { size := sizeMul (S.serialize (S.localCompute pData pLabel)).length nBlocks
      bytes := net.uninit }

/-! ## Java objects and native handles -/

/-- A `jdouble`, by its 64-bit pattern. -/
abbrev jdouble := Nat

/-- A value held in a field of a Java object. -/
inductive JValue where
  | long (v : Int)
  | double (bits : jdouble)
deriving DecidableEq

/-- A Java object seen through JNI field access: field name to value. -/
abbrev JObject := String → Option JValue

/-- The JNI call `env->SetLongField(obj, GetFieldID(.., field, "J"), v)`. -/
def SetLongField (obj : JObject) (field : String) (v : Int) : JObject :=
  fun f => if f = field then some (JValue.long v) else obj f

/-- The `NumericTablePtr` objects created by `new NumericTablePtr(..)`.  The
object in cell `i` has address `i + 1`; address 0 is the null pointer. -/
abbrev TableHeap (Table : Type) := List (Option Table)

/-- The expression `new NumericTablePtr(p)`: the address of the fresh object and
the extended heap. -/
def newNumericTablePtr {Table : Type} (heap : TableHeap Table) (p : Option Table) :
    Nat × TableHeap Table :=
  (heap.length + 1, heap ++ [p])

/-! ## Process-wide state of `OneCCL.cpp` -/

/-- The file-level variables of `OneCCL.cpp`. -/
structure CCLState where
  local_host_ips : List String
  comm_size : Nat
  rank_id : Nat
  g_comms : List Communicator

/-- The state at load time: empty list and vector, zero counters. -/
def CCLState.initial : CCLState :=
  { local_host_ips := [], comm_size := 0, rank_id := 0, g_comms := [] }

/-- The function `getComm`: `g_comms[0]`, which exists only when the vector is
not empty. -/
def getComm (st : CCLState) : Option Communicator := st.g_comms[0]?

/-! ## The training entry point -/

/-- What a call of `cLRTrainDAL` leaves behind: the returned `jlong`, the
caller's result object and the heap of table handles. -/
structure TrainOut (Table : Type) where
  ret : Int
  resultObj : JObject
  heap : TableHeap Table

/-- The JNI function `cLRTrainDAL`.  `pData` and `pLabel` are the tables behind
the handles `pNumTabData` and `pNumTabLabel`.  The thread-count setting and the
console output do not enter the modelled values.  The result is `none` when the
call does not return: there is no communicator for `getComm` to return, or the
compute function does not return. -/
def cLRTrainDAL {Table PRl PRr : Type} (lin : Solver Table PRl) (ridge : Solver Table PRr)
    (st : CCLState) (net : RankEnv) (heap : TableHeap Table) (pData pLabel : Table)
    (fitIntercept : Bool) (regParam elasticNetParam : jdouble)
    (executor_num executor_cores : CInt) (resultObj : JObject) : Option (TrainOut Table) :=
  match getComm st with
  | none => none
  | some comm =>
    let rankId : Nat := toSizeT comm.rank.val
    let computed : Option (Option Table) :=
      if true then
        linearregression_compute lin net (sizeToInt rankId) comm pData pLabel
          (toSizeT executor_num.val)
      else
        ridgeregression_compute ridge net (sizeToInt rankId) comm pData pLabel
          (toSizeT executor_num.val)
    match computed with
    | none => none
    | some resultTable =>
      if rankId = toSizeT ccl_root then
        let (coeffvectors, heap1) := newNumericTablePtr heap resultTable
        let resultObj1 := SetLongField resultObj "coeffNumericTable" (coeffvectors : Int)
        some { ret := (coeffvectors : Int), resultObj := resultObj1, heap := heap1 }
      else
        some { ret := 0, resultObj := resultObj, heap := heap }

/-! ## Communicator bootstrap -/

/-- The part of oneCCL whose outcome depends on the rendezvous address:
`ccl::create_main_kvs` over an attribute whose `ip_port` is the given string.
`none` stands for the library refusing (throwing). -/
structure CclLib where
  create_main_kvs : String → Option String

/-- The call `ccl::create_communicator(size, rank, kvs)`: the communicator of
the given size in which this process has the given rank. -/
def create_communicator (size rank : CInt) (_kvs : String) : Communicator :=
  { size := size, rank := rank }

/-- A call into oneCCL made by `c_init`. -/
inductive CclCall where
  | init
  | create_main_kvs (ip_port : String)
  | create_communicator (size rank : Int)
deriving DecidableEq

/-- What a call of `c_init` leaves behind: the returned `jint` (`none` when the
function is left by an exception of the library instead), the process-wide
state, the `CCLParam` object and the oneCCL calls made, in order. -/
structure InitOut where
  ret : Option Int
  st : CCLState
  param : JObject
  calls : List CclCall

/-- The JNI function `c_init`. -/
def c_init (lib : CclLib) (st : CCLState) (size rank : CInt) (ip_port : String)
    (param : JObject) : InitOut :=
  let ccl_ip_port := ip_port
  match lib.create_main_kvs ccl_ip_port with
  | none =>
    { ret := none, st := st, param := param
      calls := [CclCall.init, CclCall.create_main_kvs ccl_ip_port] }
  | some kvs =>
    let st1 := { st with g_comms := st.g_comms ++ [create_communicator size rank kvs] }
    let calls := [CclCall.init, CclCall.create_main_kvs ccl_ip_port,
      CclCall.create_communicator size.val rank.val]
    match getComm st1 with
    | none => { ret := none, st := st1, param := param, calls := calls }
    | some comm =>
      let st2 := { st1 with rank_id := toSizeT comm.rank.val }
      let st3 := { st2 with comm_size := toSizeT comm.size.val }
      let param1 := SetLongField param "commSize" (sizeToJlong st3.comm_size)
      let param2 := SetLongField param1 "rankId" (sizeToJlong st3.rank_id)
      { ret := some 1, st := st3, param := param2, calls := calls }

/-- The JNI function `c_cleanup`: `g_comms.pop_back()`, defined only on a
non-empty vector. -/
def c_cleanup (st : CCLState) : Option CCLState :=
  if st.g_comms = [] then none else some { st with g_comms := st.g_comms.dropLast }

/-- The JNI function `isRoot`. -/
def isRoot (st : CCLState) : Option Bool :=
  (getComm st).map (fun comm => decide (comm.rank.val = 0))

/-- The JNI function `rankID`. -/
def rankID (st : CCLState) : Option Int :=
  (getComm st).map (fun comm => comm.rank.val)

/-! ## Local addresses and the port probe -/

/-- Address family `AF_INET`. -/
def AF_INET : Nat := 2

/-- A `struct sockaddr` as this code uses it: the family, and the outcome of
`getnameinfo(.., NI_NUMERICHOST)` on it (return code and numeric host). -/
structure Sockaddr where
  sa_family : Nat
  nameinfo_res : Int
  nameinfo_host : String

/-- One element of the list returned by `getifaddrs`; `ifa_addr = none` is the
null pointer. -/
structure Ifaddr where
  ifa_name : String
  ifa_addr : Option Sockaddr

/-- The operating system as seen by the port probe: the outcome of
`getifaddrs`, of `socket(AF_INET, SOCK_STREAM, 0)`, and of `bind` on that
socket for a dotted address and a port in host order. -/
structure NetEnv where
  getifaddrs_res : Int
  ifaddrs : List Ifaddr
  socket : Int
  bind : String → Nat → Int

/-- The C function `strstr` on character lists: the offset of the first
occurrence of `needle` in `hay`, `none` for the null pointer. -/
def strstrList : List Char → List Char → Option Nat
  | [], needle => if needle = [] then some 0 else none
  | c :: cs, needle =>
    if needle.isPrefixOf (c :: cs) then some 0 else (strstrList cs needle).map (· + 1)

/-- The C function `strstr`. -/
def strstr (hay needle : String) : Option Nat := strstrList hay.toList needle.toList

/-- The loop of `fill_local_host_ip` over the interface list, started with the
addresses collected so far: the value returned from inside the loop (`-1`) or
`0` when the loop runs to its end, and the addresses collected. -/
def fillLoop : List Ifaddr → List String → Int × List String
  | [], ips => (0, ips)
  | ifa :: rest, ips =>
    match ifa.ifa_addr with
    | none => fillLoop rest ips
    | some sa =>
      if strstr ifa.ifa_name "lo" = none then
        if sa.sa_family = AF_INET then
          if sa.nameinfo_res ≠ 0 then (-1, ips)
          else fillLoop rest (ips ++ [sa.nameinfo_host])
        else fillLoop rest ips
      else fillLoop rest ips

/-- The function `fill_local_host_ip`. -/
def fill_local_host_ip (env : NetEnv) (st : CCLState) : Int × CCLState :=
  if env.getifaddrs_res < 0 then (-1, st)
  else
    let r := fillLoop env.ifaddrs []
    let st1 := { st with local_host_ips := r.2 }
    if r.1 = -1 then (-1, st1)
    else if st1.local_host_ips = [] then (-1, st1)
    else (0, st1)

/-- The function `is_valid_ip`. -/
def is_valid_ip (env : NetEnv) (st : CCLState) (ip : String) : Bool × CCLState :=
  let r := fill_local_host_ip env st
  if r.1 = -1 then (false, r.2)
  else (r.2.local_host_ips.any (fun it => it == ip), r.2)

/-- The loop `while (bind(..) < 0) { port++; .. }` over an `in_port_t`
counter, run for at most `fuel` calls of `bind`: the port at which the loop
ends, `none` when it has not ended by then. -/
def probe (bind : Nat → Int) : Nat → Nat → Option Nat
  | 0, _ => none
  | fuel + 1, port =>
    if bind port < 0 then probe bind fuel ((port + 1) % PORT_MOD) else some port

/-- The JNI function `c_getAvailPort`: the returned `jint` and the state,
`none` when the probing loop has not ended within `fuel` calls of `bind`. -/
def c_getAvailPort (env : NetEnv) (st : CCLState) (localIP : String) (fuel : Nat) :
    Option (Int × CCLState) :=
  let port_start_base : Nat := 3000
  let local_host_ip := localIP
  let v := is_valid_ip env st local_host_ip
  if !v.1 then some (-1, v.2)
  else
    let port : Nat := port_start_base % PORT_MOD
    let server_listen_sock := env.socket
    if server_listen_sock < 0 then some (-1, v.2)
    else (probe (env.bind local_host_ip) fuel port).map (fun (p : Nat) => (Int.ofNat p, v.2))

/-! ## Sample data -/

/-- A solver over byte lists whose master step returns the partial results it
was given. -/
def sampleSolver : Solver (List (List byte)) (List byte) where
  localCompute := fun d l => d.flatten ++ l.flatten
  serialize := fun p => p
  deserialize := fun b => b
  masterCompute := fun ps => ps

/-- A communicator of the given size and rank, for small sample values. -/
def mkComm (size rank : Fin 1000) : Communicator :=
  { size := ⟨(size.val : Int), by omega⟩, rank := ⟨(rank.val : Int), by omega⟩ }

/-- A C `int` from a small natural. -/
def smallInt (n : Fin 1000) : CInt := ⟨(n.val : Int), by omega⟩

/-- A Java object whose `intercept` and `coeffNumericTable` fields hold 0. -/
def sampleResult : JObject := fun f =>
  if f = "intercept" then some (JValue.double 0)
  else if f = "coeffNumericTable" then some (JValue.long 0)
  else none

/-- The arguments and surroundings of one rank's call of `cLRTrainDAL`. -/
structure TrainCall (Table : Type) where
  st : CCLState
  net : RankEnv
  heap : TableHeap Table
  pData : Table
  pLabel : Table
  fitIntercept : Bool
  regParam : jdouble
  elasticNetParam : jdouble
  executor_num : CInt
  executor_cores : CInt
  resultObj : JObject

/-- The call of `cLRTrainDAL` described by a `TrainCall`. -/
def TrainCall.run {Table PRl PRr : Type} (lin : Solver Table PRl) (ridge : Solver Table PRr)
    (c : TrainCall Table) : Option (TrainOut Table) :=
  cLRTrainDAL lin ridge c.st c.net c.heap c.pData c.pLabel c.fitIntercept c.regParam
    c.elasticNetParam c.executor_num c.executor_cores c.resultObj

/-- The call made on rank `r` of a sample group of four. -/
def sampleCall (r : Fin 4) : TrainCall (List (List byte)) :=
  { st := { CCLState.initial with g_comms := [mkComm 4 ⟨r.val, by omega⟩] }
    net := ⟨[(1, [4, 5, 6])], [(2, [7, 8, 9]), (3, [1, 1, 1])], fun _ => 0, 4096⟩
    heap := []
    pData := [[1, 2]]
    pLabel := [[3]]
    fitIntercept := true
    regParam := 0
    elasticNetParam := 0
    executor_num := smallInt 4
    executor_cores := smallInt 1
    resultObj := sampleResult }

/-- A host with one Ethernet interface, a usable socket, and every port from
3000 to 65535 taken. -/
def fullEnv : NetEnv :=
  { getifaddrs_res := 0
    ifaddrs := [⟨"lo", some ⟨AF_INET, 0, "127.0.0.1"⟩⟩, ⟨"eth0", some ⟨AF_INET, 0, "10.0.0.1"⟩⟩]
    socket := 3
    bind := fun _ p => if 3000 ≤ p ∧ p < 65536 then -1 else 0 }

/-- A host with one Ethernet interface on which `socket` fails. -/
def noSocketEnv : NetEnv :=
  { getifaddrs_res := 0
    ifaddrs := [⟨"lo", some ⟨AF_INET, 0, "127.0.0.1"⟩⟩, ⟨"eth0", some ⟨AF_INET, 0, "10.0.0.1"⟩⟩]
    socket := -1
    bind := fun _ _ => 0 }

/-- A host whose only non-loopback interface is the wireless interface `wlo1`. -/
def wirelessEnv : NetEnv :=
  { getifaddrs_res := 0
    ifaddrs := [⟨"lo", some ⟨AF_INET, 0, "127.0.0.1"⟩⟩,
      ⟨"wlo1", some ⟨AF_INET, 0, "192.168.1.7"⟩⟩]
    socket := 3
    bind := fun _ _ => 0 }

/-- A oneCCL whose key-value store accepts every address string. -/
def permissiveLib : CclLib := { create_main_kvs := fun a => some a }

/-- A `CCLParam` object whose `commSize` and `rankId` fields hold 0. -/
def sampleParam : JObject := fun f =>
  if f = "commSize" then some (JValue.long 0)
  else if f = "rankId" then some (JValue.long 0)
  else none

/-! ## Buffers: reading back what was stored -/

theorem readSpan_length (a : HeapBytes) (off len : Nat) :
    (a.readSpan off len).length = len := by
  simp [HeapBytes.readSpan]

theorem readSpan_writeAt_self (a : HeapBytes) (off : Nat) (buf : List byte) :
    (a.writeAt off buf).readSpan off buf.length = buf := by
  apply List.ext_getElem
  · simp [HeapBytes.readSpan]
  · intro j h1 h2
    simp only [HeapBytes.readSpan, List.getElem_map, List.getElem_range, HeapBytes.writeAt]
    have hj : off ≤ off + j ∧ off + j < off + buf.length := by omega
    rw [if_pos hj]
    have : off + j - off = j := by omega
    rw [this, List.getD_eq_getElem _ _ h2]

theorem readSpan_writeAt_disjoint (a : HeapBytes) (off off2 len : Nat) (buf : List byte)
    (h : off2 + len ≤ off ∨ off + buf.length ≤ off2) :
    (a.writeAt off buf).readSpan off2 len = a.readSpan off2 len := by
  simp only [HeapBytes.readSpan]
  apply List.map_congr_left
  intro j hj
  have hj2 : j < len := List.mem_range.mp hj
  simp only [HeapBytes.writeAt]
  rw [if_neg]
  omega

theorem slots_disjoint (L i k : Nat) (h : k ≠ i) :
    L * i + L ≤ L * k ∨ L * k + L ≤ L * i := by
  rcases Nat.lt_or_gt_of_ne h with h1 | h1
  · right
    calc L * k + L = L * (k + 1) := by ring
      _ ≤ L * i := Nat.mul_le_mul_left L h1
  · left
    calc L * i + L = L * (i + 1) := by ring
      _ ≤ L * k := Nat.mul_le_mul_left L h1

theorem gatherStore_other_slots (L i : Nat) (arrivals : List (Nat × List byte))
    (recv : HeapBytes) (hne : ∀ c ∈ arrivals, c.1 ≠ i) (hlen : ∀ c ∈ arrivals, c.2.length = L) :
    (gatherStore L arrivals recv).readSpan (L * i) L = recv.readSpan (L * i) L := by
  induction arrivals generalizing recv with
  | nil => rfl
  | cons c rest ih =>
    have hc : c.2.length = L := hlen c (List.mem_cons_self _ _)
    have hci : c.1 ≠ i := hne c (List.mem_cons_self _ _)
    show (gatherStore L rest (recv.writeAt (L * c.1) c.2)).readSpan (L * i) L = _
    rw [ih _ (fun d hd => hne d (List.mem_cons_of_mem _ hd))
      (fun d hd => hlen d (List.mem_cons_of_mem _ hd))]
    apply readSpan_writeAt_disjoint
    rw [hc]
    exact slots_disjoint L i c.1 hci

theorem gatherStore_slot (L i : Nat) (buf : List byte) (arrivals : List (Nat × List byte))
    (recv : HeapBytes) (hnd : (arrivals.map Prod.fst).Nodup)
    (hlen : ∀ c ∈ arrivals, c.2.length = L) (hmem : (i, buf) ∈ arrivals) :
    (gatherStore L arrivals recv).readSpan (L * i) L = buf := by
  induction arrivals generalizing recv with
  | nil => simp at hmem
  | cons c rest ih =>
    have hc : c.2.length = L := hlen c (List.mem_cons_self _ _)
    rw [List.map_cons, List.nodup_cons] at hnd
    show (gatherStore L rest (recv.writeAt (L * c.1) c.2)).readSpan (L * i) L = buf
    rcases List.mem_cons.mp hmem with h | h
    · subst h
      rw [gatherStore_other_slots L i rest _ _ (fun d hd => hlen d (List.mem_cons_of_mem _ hd))]
      · have := readSpan_writeAt_self recv (L * i) buf
        rw [hc] at this
        exact this
      · intro d hd hdi
        exact hnd.1 (List.mem_map.mpr ⟨d, hd, hdi⟩)
    · exact ih _ hnd.2 (fun d hd => hlen d (List.mem_cons_of_mem _ hd)) h

theorem sizeMul_of_lt (a b : Nat) (h : a * b < SIZE_MOD) : sizeMul a b = a * b :=
  Nat.mod_eq_of_lt h

theorem gatherStore_size (L : Nat) (arrivals : List (Nat × List byte)) (recv : HeapBytes) :
    (gatherStore L arrivals recv).size = recv.size := by
  induction arrivals generalizing recv with
  | nil => rfl
  | cons c rest ih =>
    show (gatherStore L rest (recv.writeAt (L * c.1) c.2)).size = recv.size
    rw [ih]
    rfl

theorem newBytes_eq_some (net : RankEnv) (n : Nat)
    (h : n ≤ net.heapAvail ∧ n ≤ PTRDIFF_MAX) :
    newBytes net n = some { size := n, bytes := net.uninit } := by
  unfold newBytes
  rw [if_pos h]

theorem newBytes_eq_none (net : RankEnv) (n : Nat)
    (h : ¬ (n ≤ net.heapAvail ∧ n ≤ PTRDIFF_MAX)) : newBytes net n = none := by
  unfold newBytes
  rw [if_neg h]

theorem ccl_gather_on_root (net : RankEnv) (send : List byte) (send_count : Nat)
    (recv : HeapBytes) (recv_count : Nat) (comm : Communicator) (hr : comm.rank.val = 0)
    (hfit : ∀ c ∈ gatherArrivals net comm send send_count,
      recv_count * c.1 + c.2.length ≤ recv.size) :
    ccl_gather net send send_count recv recv_count comm =
      some (gatherStore recv_count (gatherArrivals net comm send send_count) recv) := by
  unfold ccl_gather
  rw [if_pos hr, if_pos hfit]

theorem ccl_gather_off_root (net : RankEnv) (send : List byte) (send_count : Nat)
    (recv : HeapBytes) (recv_count : Nat) (comm : Communicator) (hr : ¬ comm.rank.val = 0) :
    ccl_gather net send send_count recv recv_count comm = some recv := by
  unfold ccl_gather
  rw [if_neg hr]

theorem masterInputs_eq_some {Table PR : Type} (S : Solver Table PR) (mem : HeapBytes)
    (L nBlocks : Nat) (hfit : ∀ i < nBlocks, sizeMul L i + L ≤ mem.size) :
    masterInputs S mem L nBlocks =
      some ((List.range nBlocks).map (fun i => S.deserialize (mem.readSpan (sizeMul L i) L))) := by
  unfold masterInputs
  rw [if_pos hfit]

theorem receivedBytes_size {Table PR : Type} (S : Solver Table PR) (net : RankEnv)
    (comm : Communicator) (pData pLabel : Table) (nBlocks : Nat) :
    (receivedBytes S net comm pData pLabel nBlocks).size =
      sizeMul (S.serialize (S.localCompute pData pLabel)).length nBlocks := by
  unfold receivedBytes
  split
  · rw [gatherStore_size]
  · rfl

/-- A compute function that meets `computeDefined` returns: the merged table on
the rank that merges, the empty pointer elsewhere. -/
theorem linearregression_compute_of_defined {Table PR : Type} (S : Solver Table PR)
    (net : RankEnv) (rankId : Int) (comm : Communicator) (pData pLabel : Table)
    (nBlocks : Nat) (h : computeDefined S net rankId comm pData pLabel nBlocks) :
    linearregression_compute S net rankId comm pData pLabel nBlocks =
      some (if rankId = ccl_root then
        some (S.masterCompute ((List.range nBlocks).map (fun i =>
          S.deserialize ((receivedBytes S net comm pData pLabel nBlocks).readSpan
            (sizeMul (S.serialize (S.localCompute pData pLabel)).length i)
            (S.serialize (S.localCompute pData pLabel)).length))))
      else none) := by
  obtain ⟨h1, h2, h3, h4⟩ := h
  unfold linearregression_compute
  simp only [newBytes_eq_some _ _ h1, newBytes_eq_some _ _ h2, List.take_length]
  by_cases hr : comm.rank.val = 0
  · rw [ccl_gather_on_root _ _ _ _ _ _ hr (h3 hr)]
    by_cases hq : rankId = ccl_root
    · simp only [if_pos hq]
      rw [masterInputs_eq_some S _ _ _ (by rw [gatherStore_size]; exact h4 hq)]
      simp only [receivedBytes, if_pos hr]
    · simp only [if_neg hq]
  · rw [ccl_gather_off_root _ _ _ _ _ _ hr]
    by_cases hq : rankId = ccl_root
    · simp only [if_pos hq]
      rw [masterInputs_eq_some S _ _ _ (h4 hq)]
      simp only [receivedBytes, if_neg hr]
    · simp only [if_neg hq]

/-- The conditions of `computeDefined` are also necessary: when one of them
fails, `linearregression_compute` does not return. -/
theorem linearregression_compute_returns_iff {Table PR : Type} (S : Solver Table PR)
    (net : RankEnv) (rankId : Int) (comm : Communicator) (pData pLabel : Table)
    (nBlocks : Nat) :
    (∃ t, linearregression_compute S net rankId comm pData pLabel nBlocks = some t) ↔
      computeDefined S net rankId comm pData pLabel nBlocks := by
  constructor
  · rintro ⟨t, ht⟩
    unfold linearregression_compute at ht
    by_cases h1 : sizeMul (S.serialize (S.localCompute pData pLabel)).length nBlocks ≤
        net.heapAvail ∧
        sizeMul (S.serialize (S.localCompute pData pLabel)).length nBlocks ≤ PTRDIFF_MAX
    · by_cases h2 : (S.serialize (S.localCompute pData pLabel)).length ≤ net.heapAvail ∧
          (S.serialize (S.localCompute pData pLabel)).length ≤ PTRDIFF_MAX
      · simp only [newBytes_eq_some _ _ h1, newBytes_eq_some _ _ h2, List.take_length] at ht
        by_cases hr : comm.rank.val = 0
        · by_cases h3 : ∀ c ∈ gatherArrivals net comm (S.serialize (S.localCompute pData pLabel))
              (S.serialize (S.localCompute pData pLabel)).length,
              (S.serialize (S.localCompute pData pLabel)).length * c.1 + c.2.length ≤
                sizeMul (S.serialize (S.localCompute pData pLabel)).length nBlocks
          · rw [ccl_gather_on_root _ _ _ _ _ _ hr h3] at ht
            by_cases hq : rankId = ccl_root
            · by_cases h4 : ∀ i < nBlocks,
                  sizeMul (S.serialize (S.localCompute pData pLabel)).length i +
                    (S.serialize (S.localCompute pData pLabel)).length ≤
                  sizeMul (S.serialize (S.localCompute pData pLabel)).length nBlocks
              · exact ⟨h1, h2, fun _ => h3, fun _ => h4⟩
              · simp only [if_pos hq] at ht
                have hm : masterInputs S (gatherStore
                    (S.serialize (S.localCompute pData pLabel)).length
                    (gatherArrivals net comm (S.serialize (S.localCompute pData pLabel))
                      (S.serialize (S.localCompute pData pLabel)).length)
                    { size := sizeMul (S.serialize (S.localCompute pData pLabel)).length nBlocks
                      bytes := net.uninit })
                    (S.serialize (S.localCompute pData pLabel)).length nBlocks = none := by
                  unfold masterInputs
                  rw [if_neg]
                  rw [gatherStore_size]
                  exact h4
                rw [hm] at ht
                exact absurd ht (by simp)
            · exact ⟨h1, h2, fun _ => h3, fun h => absurd h hq⟩
          · have hg : ccl_gather net (S.serialize (S.localCompute pData pLabel))
                (S.serialize (S.localCompute pData pLabel)).length
                { size := sizeMul (S.serialize (S.localCompute pData pLabel)).length nBlocks
                  bytes := net.uninit }
                (S.serialize (S.localCompute pData pLabel)).length comm = none := by
              unfold ccl_gather
              rw [if_pos hr, if_neg h3]
            rw [hg] at ht
            exact absurd ht (by simp)
        · rw [ccl_gather_off_root _ _ _ _ _ _ hr] at ht
          by_cases hq : rankId = ccl_root
          · by_cases h4 : ∀ i < nBlocks,
                sizeMul (S.serialize (S.localCompute pData pLabel)).length i +
                  (S.serialize (S.localCompute pData pLabel)).length ≤
                sizeMul (S.serialize (S.localCompute pData pLabel)).length nBlocks
            · exact ⟨h1, h2, fun h => absurd h hr, fun _ => h4⟩
            · simp only [if_pos hq] at ht
              have hm : masterInputs S
                  { size := sizeMul (S.serialize (S.localCompute pData pLabel)).length nBlocks
                    bytes := net.uninit }
                  (S.serialize (S.localCompute pData pLabel)).length nBlocks = none := by
                unfold masterInputs
                rw [if_neg h4]
              rw [hm] at ht
              exact absurd ht (by simp)
          · exact ⟨h1, h2, fun h => absurd h hr, fun h => absurd h hq⟩
      · simp only [newBytes_eq_some _ _ h1, newBytes_eq_none _ _ h2] at ht
        exact absurd ht (by simp)
    · simp only [newBytes_eq_none _ _ h1] at ht
      exact absurd ht (by simp)
  · intro h
    exact ⟨_, linearregression_compute_of_defined S net rankId comm pData pLabel nBlocks h⟩

theorem ridgeregression_compute_of_defined {Table PR : Type} (S : Solver Table PR)
    (net : RankEnv) (rankId : Int) (comm : Communicator) (pData pLabel : Table)
    (nBlocks : Nat) (h : computeDefined S net rankId comm pData pLabel nBlocks) :
    ridgeregression_compute S net rankId comm pData pLabel nBlocks =
      some (if rankId = ccl_root then
        some (S.masterCompute ((List.range nBlocks).map (fun i =>
          S.deserialize ((receivedBytes S net comm pData pLabel nBlocks).readSpan
            (sizeMul (S.serialize (S.localCompute pData pLabel)).length i)
            (S.serialize (S.localCompute pData pLabel)).length))))
      else none) := by
  obtain ⟨h1, h2, h3, h4⟩ := h
  unfold ridgeregression_compute
  simp only [newBytes_eq_some _ _ h1, newBytes_eq_some _ _ h2, List.take_length]
  by_cases hr : comm.rank.val = 0
  · rw [ccl_gather_on_root _ _ _ _ _ _ hr (h3 hr)]
    by_cases hq : rankId = ccl_root
    · simp only [if_pos hq]
      rw [masterInputs_eq_some S _ _ _ (by rw [gatherStore_size]; exact h4 hq)]
      simp only [receivedBytes, if_pos hr]
    · simp only [if_neg hq]
  · rw [ccl_gather_off_root _ _ _ _ _ _ hr]
    by_cases hq : rankId = ccl_root
    · simp only [if_pos hq]
      rw [masterInputs_eq_some S _ _ _ (h4 hq)]
      simp only [receivedBytes, if_neg hr]
    · simp only [if_neg hq]

/-! ## The gather of a complete group -/

theorem arrivals_complete (arrivals : List (Nat × List byte)) (N L : Nat)
    (bufs : Nat → List byte)
    (hperm : (arrivals.map Prod.fst).Perm (List.range N))
    (hbuf : ∀ c ∈ arrivals, c.2 = bufs c.1)
    (hlen : ∀ k < N, (bufs k).length = L) :
    (∀ c ∈ arrivals, c.1 < N ∧ c.2.length = L) ∧ (arrivals.map Prod.fst).Nodup ∧
      ∀ i < N, (i, bufs i) ∈ arrivals := by
  have hlt : ∀ c ∈ arrivals, c.1 < N := fun c hc =>
    List.mem_range.mp (hperm.mem_iff.mp (List.mem_map.mpr ⟨c, hc, rfl⟩))
  refine ⟨fun c hc => ⟨hlt c hc, ?_⟩, hperm.nodup_iff.mpr (List.nodup_range N), ?_⟩
  · rw [hbuf c hc]
    exact hlen c.1 (hlt c hc)
  · intro i hi
    obtain ⟨c, hc, hci⟩ := List.mem_map.mp (hperm.mem_iff.mpr (List.mem_range.mpr hi))
    have : c = (i, bufs i) := by
      rw [← hci, ← hbuf c hc]
    rw [← this]
    exact hc

theorem gatherStore_complete (arrivals : List (Nat × List byte)) (N L : Nat)
    (bufs : Nat → List byte) (recv : HeapBytes)
    (hperm : (arrivals.map Prod.fst).Perm (List.range N))
    (hbuf : ∀ c ∈ arrivals, c.2 = bufs c.1)
    (hlen : ∀ k < N, (bufs k).length = L) (i : Nat) :
    (gatherStore L arrivals recv).readSpan (L * i) L =
      if i < N then bufs i else recv.readSpan (L * i) L := by
  obtain ⟨hall, hnd, hmem⟩ := arrivals_complete arrivals N L bufs hperm hbuf hlen
  by_cases hi : i < N
  · rw [if_pos hi]
    exact gatherStore_slot L i (bufs i) arrivals recv hnd (fun c hc => (hall c hc).2) (hmem i hi)
  · rw [if_neg hi]
    apply gatherStore_other_slots L i arrivals recv _ (fun c hc => (hall c hc).2)
    intro c hc hci
    exact hi (hci ▸ (hall c hc).1)

theorem ptrdiff_lt_size (n : Nat) (h : n ≤ PTRDIFF_MAX) : n < SIZE_MOD :=
  lt_of_le_of_lt h (by decide)

/-- A complete, equal-length gather into a receive buffer of `nBlocks ≥ N`
slots that can be allocated: the compute functions return, and slot `i` of the
receive buffer holds `slotAfterGather`. -/
theorem complete_gather_defined {Table PR : Type} (S : Solver Table PR) (net : RankEnv)
    (rankId : Int) (comm : Communicator) (pData pLabel : Table) (nBlocks N : Nat)
    (bufs : Nat → List byte)
    (hroot : comm.rank.val = 0)
    (hperm : ((gatherArrivals net comm (S.serialize (S.localCompute pData pLabel))
      (S.serialize (S.localCompute pData pLabel)).length).map Prod.fst).Perm (List.range N))
    (hbuf : ∀ c ∈ gatherArrivals net comm (S.serialize (S.localCompute pData pLabel))
      (S.serialize (S.localCompute pData pLabel)).length, c.2 = bufs c.1)
    (hlen : ∀ k < N, (bufs k).length = (S.serialize (S.localCompute pData pLabel)).length)
    (hN : N ≤ nBlocks)
    (halloc : (S.serialize (S.localCompute pData pLabel)).length * nBlocks ≤ net.heapAvail ∧
      (S.serialize (S.localCompute pData pLabel)).length * nBlocks ≤ PTRDIFF_MAX) :
    computeDefined S net rankId comm pData pLabel nBlocks ∧
    (∀ i < nBlocks,
      sizeMul (S.serialize (S.localCompute pData pLabel)).length i =
        (S.serialize (S.localCompute pData pLabel)).length * i) ∧
    sizeMul (S.serialize (S.localCompute pData pLabel)).length nBlocks =
      (S.serialize (S.localCompute pData pLabel)).length * nBlocks ∧
    ∀ i < nBlocks,
      (receivedBytes S net comm pData pLabel nBlocks).readSpan
          (sizeMul (S.serialize (S.localCompute pData pLabel)).length i)
          (S.serialize (S.localCompute pData pLabel)).length =
        slotAfterGather net (S.serialize (S.localCompute pData pLabel)).length N bufs i := by
  obtain ⟨hall, _, hmem⟩ := arrivals_complete _ N _ bufs hperm hbuf hlen
  generalize hL : (S.serialize (S.localCompute pData pLabel)).length = L at *
  have hmulN : sizeMul L nBlocks = L * nBlocks := sizeMul_of_lt _ _ (ptrdiff_lt_size _ halloc.2)
  have hmul : ∀ i < nBlocks, sizeMul L i = L * i := by
    intro i hi
    apply sizeMul_of_lt
    exact lt_of_le_of_lt (Nat.mul_le_mul_left L (Nat.le_of_lt hi)) (ptrdiff_lt_size _ halloc.2)
  have hNpos : 0 < N := by
    have h0 : (comm.rank.val.toNat, (S.serialize (S.localCompute pData pLabel)).take L) ∈
        gatherArrivals net comm (S.serialize (S.localCompute pData pLabel)) L := by
      simp [gatherArrivals]
    exact lt_of_le_of_lt (Nat.zero_le _) (hall _ h0).1
  have hLle : L ≤ L * nBlocks := Nat.le_mul_of_pos_right L (lt_of_lt_of_le hNpos hN)
  refine ⟨⟨?_, ?_, ?_, ?_⟩, hmul, hmulN, ?_⟩
  · rw [hL, hmulN]
    exact halloc
  · rw [hL]
    exact ⟨le_trans hLle halloc.1, le_trans hLle halloc.2⟩
  · intro _ c hc
    rw [hL] at hc ⊢
    rw [hmulN, (hall c hc).2]
    calc L * c.1 + L = L * (c.1 + 1) := by ring
      _ ≤ L * nBlocks := Nat.mul_le_mul_left L (le_trans (hall c hc).1 hN)
  · intro _ i hi
    rw [hL, hmulN, hmul i hi]
    calc L * i + L = L * (i + 1) := by ring
      _ ≤ L * nBlocks := Nat.mul_le_mul_left L hi
  · intro i hi
    rw [hmul i hi]
    unfold receivedBytes
    rw [if_pos hroot, hL, gatherStore_complete _ N L bufs _ hperm hbuf hlen i]
    rfl

theorem slotAfterGather_map_getElem? (net : RankEnv) (L N nBlocks : Nat)
    (bufs : Nat → List byte) (i : Nat) (hi : i < N) (hN : N ≤ nBlocks) :
    ((List.range nBlocks).map (slotAfterGather net L N bufs))[i]? = some (bufs i) := by
  rw [List.getElem?_map, List.getElem?_range (lt_of_lt_of_le hi hN)]
  simp [slotAfterGather, hi]

/-- C2 (rank-ordering of the gather slots).  On the root, when the ranks that
contribute to the gather are exactly `0..N-1`, each once and in any order of
arrival, every contributed buffer has the same length `L`, and the receive
buffer of `nBlocks ≥ N` slots can be allocated, then for every `i < N` the
span of `L` bytes at offset `L * i` of the receive buffer is the buffer
contributed by rank `i`; `linearregression_compute` and, identically,
`ridgeregression_compute` return the merge of the decodes of `nBlocks` byte
spans of which span `i`, for every `i < N`, is that buffer; and a different
order of arrival of the same contributions gives the same result. -/
theorem gather_slot_rank_order {Table PR : Type} (S : Solver Table PR) (net : RankEnv)
    (comm : Communicator) (pData pLabel : Table) (nBlocks N : Nat) (bufs : Nat → List byte)
    (hroot : comm.rank.val = 0)
    (hperm : ((gatherArrivals net comm (S.serialize (S.localCompute pData pLabel))
      (S.serialize (S.localCompute pData pLabel)).length).map Prod.fst).Perm (List.range N))
    (hbuf : ∀ c ∈ gatherArrivals net comm (S.serialize (S.localCompute pData pLabel))
      (S.serialize (S.localCompute pData pLabel)).length, c.2 = bufs c.1)
    (hlen : ∀ k < N, (bufs k).length = (S.serialize (S.localCompute pData pLabel)).length)
    (hN : N ≤ nBlocks)
    (halloc : (S.serialize (S.localCompute pData pLabel)).length * nBlocks ≤ net.heapAvail ∧
      (S.serialize (S.localCompute pData pLabel)).length * nBlocks ≤ PTRDIFF_MAX) :
    (∀ i < N,
      (receivedBytes S net comm pData pLabel nBlocks).readSpan
          ((S.serialize (S.localCompute pData pLabel)).length * i)
          (S.serialize (S.localCompute pData pLabel)).length = bufs i) ∧
    (∃ spans : List (List byte), spans.length = nBlocks ∧
      (∀ i < N, spans[i]? = some (bufs i)) ∧
      linearregression_compute S net ccl_root comm pData pLabel nBlocks =
        some (some (S.masterCompute (spans.map S.deserialize))) ∧
      ridgeregression_compute S net ccl_root comm pData pLabel nBlocks =
        some (some (S.masterCompute (spans.map S.deserialize)))) ∧
    (∀ net2 : RankEnv, net2.uninit = net.uninit → net2.heapAvail = net.heapAvail →
      (gatherArrivals net2 comm (S.serialize (S.localCompute pData pLabel))
        (S.serialize (S.localCompute pData pLabel)).length).Perm
        (gatherArrivals net comm (S.serialize (S.localCompute pData pLabel))
          (S.serialize (S.localCompute pData pLabel)).length) →
      linearregression_compute S net2 ccl_root comm pData pLabel nBlocks =
        linearregression_compute S net ccl_root comm pData pLabel nBlocks ∧
      ridgeregression_compute S net2 ccl_root comm pData pLabel nBlocks =
        ridgeregression_compute S net ccl_root comm pData pLabel nBlocks) := by
  have key : ∀ net1 : RankEnv, net1.uninit = net.uninit → net1.heapAvail = net.heapAvail →
      (gatherArrivals net1 comm (S.serialize (S.localCompute pData pLabel))
        (S.serialize (S.localCompute pData pLabel)).length).Perm
        (gatherArrivals net comm (S.serialize (S.localCompute pData pLabel))
          (S.serialize (S.localCompute pData pLabel)).length) →
      linearregression_compute S net1 ccl_root comm pData pLabel nBlocks =
        some (some (S.masterCompute (((List.range nBlocks).map
          (slotAfterGather net (S.serialize (S.localCompute pData pLabel)).length N bufs)).map
            S.deserialize))) ∧
      ridgeregression_compute S net1 ccl_root comm pData pLabel nBlocks =
        some (some (S.masterCompute (((List.range nBlocks).map
          (slotAfterGather net (S.serialize (S.localCompute pData pLabel)).length N bufs)).map
            S.deserialize))) := by
    intro net1 hu hh hp
    obtain ⟨hdef, _, _, hslot⟩ := complete_gather_defined S net1 ccl_root comm pData pLabel
      nBlocks N bufs hroot ((hp.map Prod.fst).trans hperm)
      (fun c hc => hbuf c (hp.mem_iff.mp hc)) hlen hN (by rw [hh]; exact halloc)
    have hlist : (List.range nBlocks).map (fun i =>
        S.deserialize ((receivedBytes S net1 comm pData pLabel nBlocks).readSpan
          (sizeMul (S.serialize (S.localCompute pData pLabel)).length i)
          (S.serialize (S.localCompute pData pLabel)).length)) =
        ((List.range nBlocks).map
          (slotAfterGather net (S.serialize (S.localCompute pData pLabel)).length N bufs)).map
            S.deserialize := by
      rw [List.map_map]
      apply List.map_congr_left
      intro i hi
      simp only [Function.comp_apply]
      rw [hslot i (List.mem_range.mp hi)]
      simp only [slotAfterGather, hu]
    rw [linearregression_compute_of_defined S net1 ccl_root comm pData pLabel nBlocks hdef,
      ridgeregression_compute_of_defined S net1 ccl_root comm pData pLabel nBlocks hdef,
      if_pos rfl, hlist]
    exact ⟨rfl, rfl⟩
  refine ⟨?_, ?_, ?_⟩
  · intro i hi
    obtain ⟨_, hmul, _, hslot⟩ := complete_gather_defined S net ccl_root comm pData pLabel
      nBlocks N bufs hroot hperm hbuf hlen hN halloc
    have := hslot i (lt_of_lt_of_le hi hN)
    rw [hmul i (lt_of_lt_of_le hi hN)] at this
    rw [this]
    simp [slotAfterGather, hi]
  · refine ⟨(List.range nBlocks).map
      (slotAfterGather net (S.serialize (S.localCompute pData pLabel)).length N bufs),
      by simp, ?_, (key net rfl rfl (List.Perm.refl _)).1, (key net rfl rfl (List.Perm.refl _)).2⟩
    intro i hi
    exact slotAfterGather_map_getElem? net _ N nBlocks bufs i hi hN
  · intro net2 hu hh hp
    rw [(key net2 hu hh hp).1, (key net2 hu hh hp).2, (key net rfl rfl (List.Perm.refl _)).1,
      (key net rfl rfl (List.Perm.refl _)).2]
    exact ⟨rfl, rfl⟩

/-- Witness of C2: three ranks, rank 1 arriving first and rank 2 last. -/
theorem gather_slot_rank_order_witness :
    (mkComm 3 0).rank.val = 0 ∧
    ((gatherArrivals ⟨[(1, [4, 5, 6])], [(2, [7, 8, 9])], fun _ => 0, 64⟩ (mkComm 3 0)
      (sampleSolver.serialize (sampleSolver.localCompute [[1, 2]] [[3]]))
      (sampleSolver.serialize (sampleSolver.localCompute [[1, 2]] [[3]])).length).map
      Prod.fst).Perm (List.range 3) ∧
    ∃ spans : List (List byte), spans.length = 3 ∧
      (∀ i < 3, spans[i]? = some ((fun k => [[1, 2, 3], [4, 5, 6], [7, 8, 9]].getD k []) i)) ∧
      linearregression_compute sampleSolver ⟨[(1, [4, 5, 6])], [(2, [7, 8, 9])], fun _ => 0, 64⟩
        ccl_root (mkComm 3 0) [[1, 2]] [[3]] 3 =
        some (some (sampleSolver.masterCompute (spans.map sampleSolver.deserialize))) ∧
      ridgeregression_compute sampleSolver ⟨[(1, [4, 5, 6])], [(2, [7, 8, 9])], fun _ => 0, 64⟩
        ccl_root (mkComm 3 0) [[1, 2]] [[3]] 3 =
        some (some (sampleSolver.masterCompute (spans.map sampleSolver.deserialize))) :=
  ⟨by decide, by decide,
    (gather_slot_rank_order sampleSolver ⟨[(1, [4, 5, 6])], [(2, [7, 8, 9])], fun _ => 0, 64⟩
      (mkComm 3 0) [[1, 2]] [[3]] 3 3
      (fun k => [[1, 2, 3], [4, 5, 6], [7, 8, 9]].getD k [])
      (by decide) (by decide) (by decide) (by decide) (by decide) (by decide)).2.1⟩

/-- C9, as amended (number of merged partial results).  On the root, whenever
`linearregression_compute` returns it has decoded and accumulated one partial
result per block of its `nBlocks` argument, from slots `0, 1, ..., nBlocks-1`
of the receive buffer in that order, whatever the size of the communicator.
On the root of a communicator of size `N`, when the ranks `0..N-1` each contribute one buffer
of the common length `L` (in any order), `N ≤ nBlocks`, and the receive buffer
of `L * nBlocks` bytes can be allocated, `linearregression_compute` decodes
and accumulates one partial result per block of its `nBlocks` argument: the
partial results given to the master algorithm are the decodes of slots
`0, 1, ..., nBlocks-1` in that order, which are the buffers of ranks `0..N-1`
followed by `nBlocks - N` spans that no rank has sent; every decoded span lies
inside the receive buffer that was allocated; and for `nBlocks = N` these are
exactly the buffers of the `N` ranks. -/
theorem root_merges_one_partial_per_block {Table PR : Type} (S : Solver Table PR)
    (net : RankEnv) (comm : Communicator) (pData pLabel : Table) (nBlocks N : Nat)
    (bufs : Nat → List byte)
    (hroot : comm.rank.val = 0) (hsize : comm.size.val = (N : Int))
    (hperm : ((gatherArrivals net comm (S.serialize (S.localCompute pData pLabel))
      (S.serialize (S.localCompute pData pLabel)).length).map Prod.fst).Perm (List.range N))
    (hbuf : ∀ c ∈ gatherArrivals net comm (S.serialize (S.localCompute pData pLabel))
      (S.serialize (S.localCompute pData pLabel)).length, c.2 = bufs c.1)
    (hlen : ∀ k < N, (bufs k).length = (S.serialize (S.localCompute pData pLabel)).length)
    (hN : N ≤ nBlocks)
    (halloc : (S.serialize (S.localCompute pData pLabel)).length * nBlocks ≤ net.heapAvail ∧
      (S.serialize (S.localCompute pData pLabel)).length * nBlocks ≤ PTRDIFF_MAX) :
    (∀ nB : Nat, computeDefined S net ccl_root comm pData pLabel nB →
      linearregression_compute S net ccl_root comm pData pLabel nB =
        some (some (S.masterCompute ((List.range nB).map (fun i =>
          S.deserialize ((receivedBytes S net comm pData pLabel nB).readSpan
            (sizeMul (S.serialize (S.localCompute pData pLabel)).length i)
            (S.serialize (S.localCompute pData pLabel)).length)))))) ∧
    linearregression_compute S net ccl_root comm pData pLabel nBlocks =
      some (some (S.masterCompute ((List.range nBlocks).map (fun i =>
        S.deserialize
          (slotAfterGather net (S.serialize (S.localCompute pData pLabel)).length N bufs i))))) ∧
    ((List.range nBlocks).map (fun i =>
        S.deserialize
          (slotAfterGather net (S.serialize (S.localCompute pData pLabel)).length N bufs
            i))).length = nBlocks ∧
    (∃ buf, newBytes net
        (sizeMul (S.serialize (S.localCompute pData pLabel)).length nBlocks) = some buf ∧
      buf.size = (S.serialize (S.localCompute pData pLabel)).length * nBlocks ∧
      ∀ i < nBlocks,
        sizeMul (S.serialize (S.localCompute pData pLabel)).length i +
          (S.serialize (S.localCompute pData pLabel)).length ≤ buf.size) ∧
    (nBlocks = N →
      linearregression_compute S net ccl_root comm pData pLabel nBlocks =
        some (some (S.masterCompute ((List.range N).map (fun i => S.deserialize (bufs i)))))) := by
  obtain ⟨hdef, hmul, hmulN, hslot⟩ := complete_gather_defined S net ccl_root comm pData pLabel
    nBlocks N bufs hroot hperm hbuf hlen hN halloc
  have hmain : linearregression_compute S net ccl_root comm pData pLabel nBlocks =
      some (some (S.masterCompute ((List.range nBlocks).map (fun i =>
        S.deserialize (slotAfterGather net
          (S.serialize (S.localCompute pData pLabel)).length N bufs i))))) := by
    rw [linearregression_compute_of_defined S net ccl_root comm pData pLabel nBlocks hdef,
      if_pos rfl]
    congr 3
    apply List.map_congr_left
    intro i hi
    rw [hslot i (List.mem_range.mp hi)]
  refine ⟨?_, hmain, by simp, ?_, ?_⟩
  · intro nB hnB
    rw [linearregression_compute_of_defined S net ccl_root comm pData pLabel nB hnB, if_pos rfl]
  · refine ⟨_, newBytes_eq_some net _ hdef.1, hmulN, ?_⟩
    intro i hi
    exact hdef.2.2.2 rfl i hi
  · intro hnb
    rw [hmain, hnb]
    congr 3
    apply List.map_congr_left
    intro i hi
    simp [slotAfterGather, List.mem_range.mp hi]

/-- Witness of C9 as amended: two ranks and `nBlocks = 3`. -/
theorem root_merges_one_partial_per_block_witness :
    (mkComm 2 0).rank.val = 0 ∧ (mkComm 2 0).size.val = ((2 : Nat) : Int) ∧
    linearregression_compute sampleSolver ⟨[(1, [4, 5, 6])], [], fun _ => 9, 64⟩ ccl_root
      (mkComm 2 0) [[1, 2]] [[3]] 3 =
      some (some (sampleSolver.masterCompute ((List.range 3).map (fun i =>
        sampleSolver.deserialize
          (slotAfterGather ⟨[(1, [4, 5, 6])], [], fun _ => 9, 64⟩
            (sampleSolver.serialize (sampleSolver.localCompute [[1, 2]] [[3]])).length 2
            (fun k => [[1, 2, 3], [4, 5, 6]].getD k []) i))))) :=
  ⟨by decide, by decide,
    (root_merges_one_partial_per_block sampleSolver ⟨[(1, [4, 5, 6])], [], fun _ => 9, 64⟩
      (mkComm 2 0) [[1, 2]] [[3]] 3 2 (fun k => [[1, 2, 3], [4, 5, 6]].getD k [])
      (by decide) (by decide) (by decide) (by decide) (by decide) (by decide)
      (by decide)).2.1⟩

/-- C9 as stated fails: on a communicator of size 1 (a single rank, the root),
called with `nBlocks = 2`, `linearregression_compute` gives the master
algorithm two partial results, the second decoded from receive-buffer bytes
that no rank has sent. -/
theorem root_merges_counterexample :
    (mkComm 1 0).size.val = 1 ∧ (mkComm 1 0).rank.val = ccl_root ∧
    linearregression_compute sampleSolver ⟨[], [], fun _ => 9, 64⟩ ccl_root (mkComm 1 0)
      [[1, 2]] [[3]] 2 = some (some [[1, 2, 3], [9, 9, 9]]) ∧
    linearregression_compute sampleSolver ⟨[], [], fun _ => 9, 64⟩ ccl_root (mkComm 1 0)
      [[1, 2]] [[3]] 2 ≠
      some (some (sampleSolver.masterCompute ((List.range 1).map (fun i =>
        sampleSolver.deserialize (HeapBytes.readSpan
          (receivedBytes sampleSolver ⟨[], [], fun _ => 9, 64⟩ (mkComm 1 0) [[1, 2]] [[3]] 2)
          (3 * i) 3))))) := by
  decide

/-! ## The training entry point -/

theorem toSizeT_eq_zero_iff (x : CInt) : toSizeT x.val = toSizeT ccl_root ↔ x.val = 0 := by
  have h := x.property
  simp only [toSizeT, SIZE_MOD, ccl_root]
  norm_num
  omega

theorem sizeToInt_toSizeT (x : CInt) : sizeToInt (toSizeT x.val) = x.val := by
  have h := x.property
  simp only [toSizeT, SIZE_MOD, sizeToInt]
  norm_num
  split <;> omega

/-- The outcome of `cLRTrainDAL` once the compute function has returned. -/
theorem cLRTrainDAL_eq {Table PRl PRr : Type} (lin : Solver Table PRl)
    (ridge : Solver Table PRr) (st : CCLState) (net : RankEnv) (heap : TableHeap Table)
    (pData pLabel : Table) (fitIntercept : Bool) (regParam elasticNetParam : jdouble)
    (executor_num executor_cores : CInt) (resultObj : JObject) (comm : Communicator)
    (t : Option Table) (h : getComm st = some comm)
    (ht : linearregression_compute lin net comm.rank.val comm pData pLabel
      (toSizeT executor_num.val) = some t) :
    cLRTrainDAL lin ridge st net heap pData pLabel fitIntercept regParam elasticNetParam
        executor_num executor_cores resultObj =
      some (if comm.rank.val = 0 then
        { ret := ((heap.length + 1 : Nat) : Int)
          resultObj :=
            SetLongField resultObj "coeffNumericTable" ((heap.length + 1 : Nat) : Int)
          heap := heap ++ [t] }
      else { ret := 0, resultObj := resultObj, heap := heap }) := by
  unfold cLRTrainDAL
  rw [h]
  simp only [if_true, sizeToInt_toSizeT, newNumericTablePtr, ht]
  by_cases hr : comm.rank.val = 0
  · rw [if_pos ((toSizeT_eq_zero_iff comm.rank).mpr hr), if_pos hr]
  · rw [if_neg (fun hh => hr ((toSizeT_eq_zero_iff comm.rank).mp hh)), if_neg hr]

/-- When the compute function does not return, neither does `cLRTrainDAL`. -/
theorem cLRTrainDAL_eq_none {Table PRl PRr : Type} (lin : Solver Table PRl)
    (ridge : Solver Table PRr) (st : CCLState) (net : RankEnv) (heap : TableHeap Table)
    (pData pLabel : Table) (fitIntercept : Bool) (regParam elasticNetParam : jdouble)
    (executor_num executor_cores : CInt) (resultObj : JObject) (comm : Communicator)
    (h : getComm st = some comm)
    (ht : linearregression_compute lin net comm.rank.val comm pData pLabel
      (toSizeT executor_num.val) = none) :
    cLRTrainDAL lin ridge st net heap pData pLabel fitIntercept regParam elasticNetParam
        executor_num executor_cores resultObj = none := by
  unfold cLRTrainDAL
  rw [h]
  simp only [if_true, sizeToInt_toSizeT, ht]

/-- The outcome of `cLRTrainDAL` on a rank on which the compute function is
defined: it returns; on the root the handle is the address of a fresh cell
holding the merged table, elsewhere it is 0 and nothing is written. -/
theorem cLRTrainDAL_of_defined {Table PRl PRr : Type} (lin : Solver Table PRl)
    (ridge : Solver Table PRr) (st : CCLState) (net : RankEnv) (heap : TableHeap Table)
    (pData pLabel : Table) (fitIntercept : Bool) (regParam elasticNetParam : jdouble)
    (executor_num executor_cores : CInt) (resultObj : JObject) (comm : Communicator)
    (h : getComm st = some comm)
    (hdef : computeDefined lin net comm.rank.val comm pData pLabel (toSizeT executor_num.val)) :
    ∃ t, linearregression_compute lin net comm.rank.val comm pData pLabel
        (toSizeT executor_num.val) = some t ∧
      (comm.rank.val = 0 → ∃ model, t = some model) ∧ (comm.rank.val ≠ 0 → t = none) ∧
      cLRTrainDAL lin ridge st net heap pData pLabel fitIntercept regParam elasticNetParam
          executor_num executor_cores resultObj =
        some (if comm.rank.val = 0 then
          { ret := ((heap.length + 1 : Nat) : Int)
            resultObj :=
              SetLongField resultObj "coeffNumericTable" ((heap.length + 1 : Nat) : Int)
            heap := heap ++ [t] }
        else { ret := 0, resultObj := resultObj, heap := heap }) := by
  have hc := linearregression_compute_of_defined lin net comm.rank.val comm pData pLabel
    (toSizeT executor_num.val) hdef
  refine ⟨_, hc, ?_, ?_, cLRTrainDAL_eq lin ridge st net heap pData pLabel fitIntercept
    regParam elasticNetParam executor_num executor_cores resultObj comm _ h hc⟩
  · intro hr
    rw [if_pos (show comm.rank.val = ccl_root from hr)]
    exact ⟨_, rfl⟩
  · intro hr
    rw [if_neg (show ¬ comm.rank.val = ccl_root from hr)]

theorem heap_append_getElem? {Table : Type} (heap : TableHeap Table) (t : Option Table) :
    (heap ++ [t])[(((heap.length + 1 : Nat) : Int) - 1).toNat]? = some t := by
  have : (((heap.length + 1 : Nat) : Int) - 1).toNat = heap.length := by omega
  rw [this]
  simp

theorem returned_models_count {α : Type} (f : Nat → Option α) (nz : α → Bool)
    (l : List Nat) (h : ∀ r ∈ l, ∃ out, f r = some out ∧ (nz out = true ↔ r = 0)) :
    (l.filterMap f).length = l.length ∧
      ((l.filterMap f).filter nz).length = l.count 0 := by
  induction l with
  | nil => simp
  | cons r rest ih =>
    obtain ⟨out, hout, hnz⟩ := h r (List.mem_cons_self _ _)
    have ih2 := ih (fun x hx => h x (List.mem_cons_of_mem _ hx))
    rw [List.filterMap_cons_some hout]
    constructor
    · simp [ih2.1]
    · by_cases hr : r = 0
      · have : nz out = true := hnz.mpr hr
        rw [List.filter_cons_of_pos this, hr, List.count_cons_self, List.length_cons, ih2.2]
      · have : ¬ nz out = true := fun hh => hr (hnz.mp hh)
        rw [List.filter_cons_of_neg this, ih2.2, List.count_cons_of_ne]
        exact fun hh => hr hh.symm

/-- A negative `executor_num` turns into an array size that no heap provides:
`new byte[..]` throws and the call does not return, on the root as elsewhere. -/
theorem negative_executor_num_throws :
    cLRTrainDAL sampleSolver sampleSolver (sampleCall 0).st (sampleCall 0).net [] [[1, 2]] [[3]]
      true 0 0 ⟨-1, by decide⟩ (smallInt 1) sampleResult = none ∧
    cLRTrainDAL sampleSolver sampleSolver (sampleCall 1).st (sampleCall 1).net [] [[1, 2]] [[3]]
      true 0 0 ⟨-1, by decide⟩ (smallInt 1) sampleResult = none :=
  ⟨cLRTrainDAL_eq_none sampleSolver sampleSolver (sampleCall 0).st (sampleCall 0).net []
      [[1, 2]] [[3]] true 0 0 ⟨-1, by decide⟩ (smallInt 1) sampleResult (mkComm 4 0) rfl
      (by decide),
    cLRTrainDAL_eq_none sampleSolver sampleSolver (sampleCall 1).st (sampleCall 1).net []
      [[1, 2]] [[3]] true 0 0 ⟨-1, by decide⟩ (smallInt 1) sampleResult (mkComm 4 1) rfl
      (by decide)⟩

/-- C1 (root exclusivity).  For a communicator of size `N ≥ 1`, when the call
of `cLRTrainDAL` on each rank `r < N` sees the communicator with that size and
rank and its compute step is defined (its byte arrays can be allocated and the
gather stays inside the receive buffer), every call returns; the returned
handle is non-zero exactly on rank 0, where it is the address of a cell holding
a non-empty table pointer, the model that `linearregression_compute` has
merged; every other rank returns 0; and among the `N` returned handles exactly
one is non-zero. -/
theorem root_exclusivity {Table PRl PRr : Type} (lin : Solver Table PRl)
    (ridge : Solver Table PRr) (N : Nat) (hN : 1 ≤ N) (calls : Nat → TrainCall Table)
    (hcomm : ∀ r < N, ∃ comm, getComm (calls r).st = some comm ∧
      comm.size.val = (N : Int) ∧ comm.rank.val = (r : Int) ∧
      computeDefined lin (calls r).net comm.rank.val comm (calls r).pData (calls r).pLabel
        (toSizeT (calls r).executor_num.val)) :
    (∀ r < N, ∃ out, (calls r).run lin ridge = some out ∧ (out.ret ≠ 0 ↔ r = 0) ∧
      (r ≠ 0 → out.ret = 0) ∧
      (r = 0 → ∃ comm model, getComm (calls r).st = some comm ∧
        linearregression_compute lin (calls r).net comm.rank.val comm (calls r).pData
          (calls r).pLabel (toSizeT (calls r).executor_num.val) = some (some model) ∧
        out.heap[(out.ret - 1).toNat]? = some (some model))) ∧
    ((List.range N).filterMap (fun r => (calls r).run lin ridge)).length = N ∧
    (((List.range N).filterMap (fun r => (calls r).run lin ridge)).filter
      (fun out => decide (out.ret ≠ 0))).length = 1 := by
  have key : ∀ r < N, ∃ out, (calls r).run lin ridge = some out ∧ (out.ret ≠ 0 ↔ r = 0) ∧
      (r ≠ 0 → out.ret = 0) ∧
      (r = 0 → ∃ comm model, getComm (calls r).st = some comm ∧
        linearregression_compute lin (calls r).net comm.rank.val comm (calls r).pData
          (calls r).pLabel (toSizeT (calls r).executor_num.val) = some (some model) ∧
        out.heap[(out.ret - 1).toNat]? = some (some model)) := by
    intro r hr
    obtain ⟨comm, hc, _, hrank, hdef⟩ := hcomm r hr
    obtain ⟨t, ht, hroot, _, hrun⟩ := cLRTrainDAL_of_defined lin ridge (calls r).st (calls r).net
      (calls r).heap (calls r).pData (calls r).pLabel (calls r).fitIntercept (calls r).regParam
      (calls r).elasticNetParam (calls r).executor_num (calls r).executor_cores
      (calls r).resultObj comm hc hdef
    unfold TrainCall.run
    rw [hrun]
    by_cases h0 : r = 0
    · have hr0 : comm.rank.val = 0 := by rw [hrank, h0]; rfl
      rw [if_pos hr0]
      obtain ⟨model, hm⟩ := hroot hr0
      refine ⟨_, rfl, ?_, fun h => absurd h0 h, fun _ => ⟨comm, model, hc, ?_, ?_⟩⟩
      · simp only [h0, iff_true]
        omega
      · rw [ht, hm]
      · rw [heap_append_getElem?, hm]
    · have hr0 : ¬ comm.rank.val = 0 := by rw [hrank]; omega
      rw [if_neg hr0]
      exact ⟨_, rfl, by simp [h0], fun _ => rfl, fun h => absurd h h0⟩
  have hcount := returned_models_count (fun r => (calls r).run lin ridge)
    (fun out => decide (out.ret ≠ 0)) (List.range N) (by
      intro r hr
      obtain ⟨out, ho, hiff, _⟩ := key r (List.mem_range.mp hr)
      exact ⟨out, ho, by simpa using hiff⟩)
  refine ⟨key, ?_, ?_⟩
  · rw [hcount.1, List.length_range]
  · rw [hcount.2]
    exact List.count_eq_one_of_mem (List.nodup_range N) (List.mem_range.mpr hN)

/-- Witness of C1: a group of four ranks. -/
theorem root_exclusivity_witness :
    (1 ≤ 4) ∧
    (((List.range 4).filterMap (fun r =>
      (sampleCall (Fin.ofNat r)).run sampleSolver sampleSolver)).filter
      (fun out => decide (out.ret ≠ 0))).length = 1 :=
  ⟨by decide,
    (root_exclusivity sampleSolver sampleSolver 4 (by decide)
      (fun r => sampleCall (Fin.ofNat r))
      (by
        intro r hr
        interval_cases r <;> exact ⟨_, rfl, by decide, by decide, by decide⟩)).2.2⟩

/-- C7 (result handoff frame).  A call of `cLRTrainDAL` that sees a
communicator and whose compute step is defined returns; on a rank other than
the root the caller's result object is unchanged; on the root every field
other than `coeffNumericTable` is unchanged and `coeffNumericTable` holds the
returned handle; the `intercept` field keeps its value on every rank. -/
theorem result_handoff_frame {Table PRl PRr : Type} (lin : Solver Table PRl)
    (ridge : Solver Table PRr) (st : CCLState) (net : RankEnv) (heap : TableHeap Table)
    (pData pLabel : Table) (fitIntercept : Bool) (regParam elasticNetParam : jdouble)
    (executor_num executor_cores : CInt) (resultObj : JObject) (comm : Communicator)
    (h : getComm st = some comm)
    (hdef : computeDefined lin net comm.rank.val comm pData pLabel (toSizeT executor_num.val)) :
    ∃ out, cLRTrainDAL lin ridge st net heap pData pLabel fitIntercept regParam
        elasticNetParam executor_num executor_cores resultObj = some out ∧
      (comm.rank.val ≠ ccl_root → out.resultObj = resultObj) ∧
      (comm.rank.val = ccl_root →
        (∀ f, f ≠ "coeffNumericTable" → out.resultObj f = resultObj f) ∧
        out.resultObj "coeffNumericTable" = some (JValue.long out.ret)) ∧
      out.resultObj "intercept" = resultObj "intercept" := by
  obtain ⟨t, _, _, _, hrun⟩ := cLRTrainDAL_of_defined lin ridge st net heap pData pLabel
    fitIntercept regParam elasticNetParam executor_num executor_cores resultObj comm h hdef
  rw [hrun]
  refine ⟨_, rfl, ?_, ?_, ?_⟩
  · intro hr
    rw [if_neg (show ¬ comm.rank.val = 0 from hr)]
  · intro hr
    rw [if_pos (show comm.rank.val = 0 from hr)]
    refine ⟨?_, ?_⟩
    · intro f hf
      simp [SetLongField, hf]
    · simp [SetLongField]
  · by_cases hr : comm.rank.val = 0
    · rw [if_pos hr]
      simp [SetLongField]
    · rw [if_neg hr]

/-- Witness of C7: the root of a group of four. -/
theorem result_handoff_frame_witness :
    getComm (sampleCall 0).st = some (mkComm 4 0) ∧
    computeDefined sampleSolver (sampleCall 0).net (mkComm 4 0).rank.val (mkComm 4 0)
      (sampleCall 0).pData (sampleCall 0).pLabel (toSizeT (smallInt 4).val) ∧
    ∃ out, (sampleCall 0).run sampleSolver sampleSolver = some out ∧
      ((mkComm 4 0).rank.val ≠ ccl_root → out.resultObj = sampleResult) ∧
      ((mkComm 4 0).rank.val = ccl_root →
        (∀ f, f ≠ "coeffNumericTable" → out.resultObj f = sampleResult f) ∧
        out.resultObj "coeffNumericTable" = some (JValue.long out.ret)) ∧
      out.resultObj "intercept" = sampleResult "intercept" :=
  ⟨rfl, by decide,
    result_handoff_frame sampleSolver sampleSolver (sampleCall 0).st (sampleCall 0).net
      (sampleCall 0).heap (sampleCall 0).pData (sampleCall 0).pLabel true 0 0 (smallInt 4)
      (smallInt 1) sampleResult (mkComm 4 0) rfl (by decide)⟩

/-- C8 (model-family selection).  The outcome of `cLRTrainDAL` is the same for
every `fitIntercept`, `regParam` and `elasticNetParam` and for every ridge
solver, so `ridgeregression_compute` plays no part in it.  The call follows
`linearregression_compute` on the same rank, communicator, data, labels and
`executor_num`: it returns when that function returns and does not return when
that function does not; on the root the table stored behind the returned
handle is the result of `linearregression_compute`, and on any other rank that
result is the empty pointer. -/
theorem model_family_selection {Table PRl PRr : Type} (lin : Solver Table PRl)
    (ridge : Solver Table PRr) (st : CCLState) (net : RankEnv) (heap : TableHeap Table)
    (pData pLabel : Table) (fitIntercept : Bool) (regParam elasticNetParam : jdouble)
    (executor_num executor_cores : CInt) (resultObj : JObject) :
    (∀ (PRr2 : Type) (ridge2 : Solver Table PRr2) (fitIntercept2 : Bool)
        (regParam2 elasticNetParam2 : jdouble),
      cLRTrainDAL lin ridge2 st net heap pData pLabel fitIntercept2 regParam2
          elasticNetParam2 executor_num executor_cores resultObj =
        cLRTrainDAL lin ridge st net heap pData pLabel fitIntercept regParam
          elasticNetParam executor_num executor_cores resultObj) ∧
    (∀ comm, getComm st = some comm →
      (linearregression_compute lin net comm.rank.val comm pData pLabel
          (toSizeT executor_num.val) = none →
        cLRTrainDAL lin ridge st net heap pData pLabel fitIntercept regParam
          elasticNetParam executor_num executor_cores resultObj = none) ∧
      (∀ t, linearregression_compute lin net comm.rank.val comm pData pLabel
          (toSizeT executor_num.val) = some t →
        ∃ out, cLRTrainDAL lin ridge st net heap pData pLabel fitIntercept regParam
            elasticNetParam executor_num executor_cores resultObj = some out ∧
          (comm.rank.val = ccl_root → out.heap[(out.ret - 1).toNat]? = some t) ∧
          (comm.rank.val ≠ ccl_root → t = none ∧ out.ret = 0)) ∧
      (computeDefined lin net comm.rank.val comm pData pLabel (toSizeT executor_num.val) →
        ∃ t, linearregression_compute lin net comm.rank.val comm pData pLabel
          (toSizeT executor_num.val) = some t)) := by
  constructor
  · intro PRr2 ridge2 fitIntercept2 regParam2 elasticNetParam2
    unfold cLRTrainDAL
    simp only [if_true]
  · intro comm h
    refine ⟨?_, ?_, ?_⟩
    · intro hn
      exact cLRTrainDAL_eq_none lin ridge st net heap pData pLabel fitIntercept regParam
        elasticNetParam executor_num executor_cores resultObj comm h hn
    · intro t ht
      rw [cLRTrainDAL_eq lin ridge st net heap pData pLabel fitIntercept regParam
        elasticNetParam executor_num executor_cores resultObj comm t h ht]
      refine ⟨_, rfl, ?_, ?_⟩
      · intro hr
        rw [if_pos (show comm.rank.val = 0 from hr)]
        exact heap_append_getElem? heap t
      · intro hr
        rw [if_neg (show ¬ comm.rank.val = 0 from hr)]
        refine ⟨?_, rfl⟩
        unfold linearregression_compute at ht
        simp only [if_neg (show ¬ comm.rank.val = ccl_root from hr)] at ht
        split at ht
        · exact absurd ht (by simp)
        · split at ht
          · exact absurd ht (by simp)
          · split at ht
            · exact absurd ht (by simp)
            · exact (Option.some.inj ht).symm
    · intro hdef
      exact ⟨_, linearregression_compute_of_defined lin net comm.rank.val comm pData pLabel
        (toSizeT executor_num.val) hdef⟩

/-- Witness of C8: on the root of a group of four the handle leads to the
result of `linearregression_compute`. -/
theorem model_family_selection_witness :
    getComm (sampleCall 0).st = some (mkComm 4 0) ∧
    linearregression_compute sampleSolver (sampleCall 0).net (mkComm 4 0).rank.val
      (mkComm 4 0) [[1, 2]] [[3]] (toSizeT (smallInt 4).val) =
      some (some [[1, 2, 3], [4, 5, 6], [7, 8, 9], [1, 1, 1]]) ∧
    ∃ out, cLRTrainDAL sampleSolver sampleSolver (sampleCall 0).st (sampleCall 0).net []
        [[1, 2]] [[3]] true 0 0 (smallInt 4) (smallInt 1) sampleResult = some out ∧
      ((mkComm 4 0).rank.val = ccl_root →
        out.heap[(out.ret - 1).toNat]? =
          some (some [[1, 2, 3], [4, 5, 6], [7, 8, 9], [1, 1, 1]])) ∧
      ((mkComm 4 0).rank.val ≠ ccl_root →
        some [[1, 2, 3], [4, 5, 6], [7, 8, 9], [1, 1, 1]] = none ∧ out.ret = 0) :=
  ⟨rfl, by decide,
    ((model_family_selection sampleSolver sampleSolver (sampleCall 0).st (sampleCall 0).net
      [] [[1, 2]] [[3]] true 0 0 (smallInt 4) (smallInt 1) sampleResult).2 (mkComm 4 0)
      rfl).2.1 _ (by decide)⟩

/-! ## The port probe -/

theorem probe_skip (bind : Nat → Int) (k f p : Nat) (hp : p < PORT_MOD)
    (hfail : ∀ j < k, bind ((p + j) % PORT_MOD) < 0) :
    probe bind (k + f) p = probe bind f ((p + k) % PORT_MOD) := by
  induction k generalizing p with
  | zero =>
    rw [Nat.zero_add, Nat.add_zero, Nat.mod_eq_of_lt hp]
  | succ k ih =>
    have h0 : bind p < 0 := by
      have := hfail 0 (Nat.succ_pos k)
      rwa [Nat.add_zero, Nat.mod_eq_of_lt hp] at this
    have hstep : probe bind (k + 1 + f) p = probe bind (k + f) ((p + 1) % PORT_MOD) := by
      have : k + 1 + f = (k + f) + 1 := by omega
      rw [this]
      simp only [probe, if_pos h0]
    rw [hstep, ih ((p + 1) % PORT_MOD) (Nat.mod_lt _ (by decide)) (fun j hj => by
      have := hfail (j + 1) (by omega)
      rwa [Nat.mod_add_mod, show p + 1 + j = p + (j + 1) by omega])]
    rw [Nat.mod_add_mod, show p + 1 + k = p + (k + 1) by omega]

theorem probe_some (bind : Nat → Int) (fuel p q : Nat) (hp : p < PORT_MOD)
    (h : probe bind fuel p = some q) : q < PORT_MOD ∧ 0 ≤ bind q := by
  induction fuel generalizing p with
  | zero => simp [probe] at h
  | succ fuel ih =>
    simp only [probe] at h
    by_cases hb : bind p < 0
    · rw [if_pos hb] at h
      exact ih _ (Nat.mod_lt _ (by decide)) h
    · rw [if_neg hb] at h
      have : p = q := Option.some.inj h
      subst this
      exact ⟨hp, not_lt.mp hb⟩

/-- C3 (port probe monotonicity).  Port numbers are values of the 16-bit
`in_port_t`, so port `3000 + j` stands for `(3000 + j) mod 2^16`, which is
`3000 + j` itself up to 65535.  For a valid local IP and every `k`: if `bind`
fails on each of the ports `3000, ..., 3000+k-1` and, on the socket the call
has created, succeeds on port `3000+k`, then `c_getAvailPort` returns that
port as soon as it is given `k+1` calls of `bind`; for `3000 + k ≤ 65535` the
returned value is the number `3000 + k`. -/
theorem port_probe_monotone (env : NetEnv) (st : CCLState) (ip : String) (k fuel : Nat)
    (hvalid : (is_valid_ip env st ip).1 = true)
    (hfail : ∀ j < k, env.bind ip ((3000 + j) % PORT_MOD) < 0)
    (hok : 0 ≤ env.socket ∧ 0 ≤ env.bind ip ((3000 + k) % PORT_MOD))
    (hfuel : k < fuel) :
    (c_getAvailPort env st ip fuel).map Prod.fst =
      some (((3000 + k) % PORT_MOD : Nat) : Int) ∧
    (3000 + k < PORT_MOD →
      (c_getAvailPort env st ip fuel).map Prod.fst = some ((3000 + k : Nat) : Int)) := by
  have main : (c_getAvailPort env st ip fuel).map Prod.fst =
      some (((3000 + k) % PORT_MOD : Nat) : Int) := by
    obtain ⟨f, rfl⟩ : ∃ f, fuel = k + (f + 1) := ⟨fuel - k - 1, by omega⟩
    unfold c_getAvailPort
    simp only [hvalid, Bool.not_true, if_neg (not_lt.mpr hok.1)]
    have h3000 : 3000 % PORT_MOD = 3000 := by decide
    rw [h3000, probe_skip (env.bind ip) k (f + 1) 3000 (by decide) hfail]
    simp [probe, not_lt.mpr hok.2]
  refine ⟨main, fun hk => ?_⟩
  rw [main, Nat.mod_eq_of_lt hk]

/-- Witness of C3: every port from 3000 to 65535 is taken (`k = 62536`); the
port counter wraps and the probe ends on port 0. -/
theorem port_probe_monotone_witness :
    (is_valid_ip fullEnv CCLState.initial "10.0.0.1").1 = true ∧
    (0 ≤ fullEnv.socket ∧ 0 ≤ fullEnv.bind "10.0.0.1" ((3000 + 62536) % PORT_MOD)) ∧
    (c_getAvailPort fullEnv CCLState.initial "10.0.0.1" 62537).map Prod.fst =
      some (((3000 + 62536) % PORT_MOD : Nat) : Int) :=
  ⟨by decide, by decide,
    (port_probe_monotone fullEnv CCLState.initial "10.0.0.1" 62536 62537 (by decide)
      (by
        intro j hj
        have h1 : (3000 + j) % PORT_MOD = 3000 + j := Nat.mod_eq_of_lt (by
          simp only [PORT_MOD]
          omega)
        have h2 : 3000 ≤ 3000 + j ∧ 3000 + j < 65536 := by omega
        simp only [h1, fullEnv, if_pos h2]
        decide)
      (by decide) (by decide)).1⟩

/-- C4, as amended (failure codes of the port probe).  `c_getAvailPort`
returns `-1` when the candidate IP is not accepted, and the same `-1` when the
IP is accepted but `socket` fails.  A value it returns is either that `-1`,
which arises only in these two cases, or a port in `0..65535` on which `bind`
succeeded: a failed `bind` is never reported, the probe goes on to the next
port. -/
theorem port_probe_failure_codes (env : NetEnv) (st : CCLState) (ip : String) (fuel : Nat) :
    ((is_valid_ip env st ip).1 = false →
      (c_getAvailPort env st ip fuel).map Prod.fst = some (-1)) ∧
    ((is_valid_ip env st ip).1 = true → env.socket < 0 →
      (c_getAvailPort env st ip fuel).map Prod.fst = some (-1)) ∧
    (∀ v, (c_getAvailPort env st ip fuel).map Prod.fst = some v →
      (v = -1 ∧ ((is_valid_ip env st ip).1 = false ∨ env.socket < 0)) ∨
      ((is_valid_ip env st ip).1 = true ∧ 0 ≤ env.socket ∧ 0 ≤ v ∧ v < 65536 ∧
        0 ≤ env.bind ip v.toNat)) := by
  refine ⟨?_, ?_, ?_⟩
  · intro h
    simp [c_getAvailPort, h]
  · intro h hs
    simp [c_getAvailPort, h, hs]
  · intro v hv
    unfold c_getAvailPort at hv
    by_cases hval : (is_valid_ip env st ip).1 = true
    · by_cases hs : env.socket < 0
      · left
        simp only [hval, Bool.not_true, if_pos hs] at hv
        simp at hv
        exact ⟨hv.symm, Or.inr hs⟩
      · right
        simp only [hval, Bool.not_true, if_neg hs] at hv
        simp only [Bool.false_eq_true, if_false, Option.map_map] at hv
        cases hq : probe (env.bind ip) fuel (3000 % PORT_MOD) with
        | none => simp [hq] at hv
        | some q =>
          rw [hq] at hv
          have hvq : (q : Int) = v := by simpa using hv
          have := probe_some (env.bind ip) fuel _ q (Nat.mod_lt _ (by decide)) hq
          subst hvq
          refine ⟨hval, not_lt.mp hs, by omega, ?_, ?_⟩
          · have := this.1
            simp only [PORT_MOD] at this
            omega
          · simpa using this.2
    · left
      have hf : (is_valid_ip env st ip).1 = false := by
        simpa using hval
      simp only [hf] at hv
      simp at hv
      exact ⟨hv.symm, Or.inl hf⟩

/-- Witness of C4 as amended: an address that no interface carries. -/
theorem port_probe_failure_codes_witness :
    (is_valid_ip fullEnv CCLState.initial "10.0.0.2").1 = false ∧
    (c_getAvailPort fullEnv CCLState.initial "10.0.0.2" 1).map Prod.fst = some (-1) :=
  ⟨by decide,
    (port_probe_failure_codes fullEnv CCLState.initial "10.0.0.2" 1).1 (by decide)⟩

/-- C4 as stated fails: an IP that matches no local interface and a failure of
`socket` on a valid IP give the same returned value, `-1`. -/
theorem port_probe_codes_counterexample :
    (is_valid_ip noSocketEnv CCLState.initial "10.0.0.2").1 = false ∧
    (is_valid_ip noSocketEnv CCLState.initial "10.0.0.1").1 = true ∧
    noSocketEnv.socket < 0 ∧
    (c_getAvailPort noSocketEnv CCLState.initial "10.0.0.2" 8).map Prod.fst = some (-1) ∧
    (c_getAvailPort noSocketEnv CCLState.initial "10.0.0.1" 8).map Prod.fst = some (-1) := by
  decide

/-! ## Local addresses -/

theorem strstrList_eq_none_iff (hay needle : List Char) :
    strstrList hay needle = none ↔ ¬ needle <:+: hay := by
  induction hay with
  | nil =>
    by_cases hn : needle = []
    · simp [strstrList, hn]
    · simp [strstrList, hn]
  | cons c cs ih =>
    simp only [strstrList]
    by_cases hp : needle.isPrefixOf (c :: cs) = true
    · rw [if_pos hp]
      simp only [reduceCtorEq, false_iff, not_not]
      exact (List.isPrefixOf_iff_prefix.mp hp).isInfix
    · rw [if_neg hp, Option.map_eq_none', ih, List.infix_cons_iff]
      have : ¬ needle <+: c :: cs := fun h => hp (List.isPrefixOf_iff_prefix.mpr h)
      tauto

theorem fillLoop_fst (l : List Ifaddr) (acc : List String) :
    ((fillLoop l acc).1 = 0 ∨ (fillLoop l acc).1 = -1) ∧
    ((fillLoop l acc).1 = -1 ↔ ∃ ifa ∈ l, ∃ sa, ifa.ifa_addr = some sa ∧
      strstr ifa.ifa_name "lo" = none ∧ sa.sa_family = AF_INET ∧ sa.nameinfo_res ≠ 0) := by
  induction l generalizing acc with
  | nil => simp [fillLoop]
  | cons ifa rest ih =>
    cases ha : ifa.ifa_addr with
    | none =>
      simp only [fillLoop, ha]
      refine ⟨(ih acc).1, ?_⟩
      rw [(ih acc).2]
      simp [ha]
    | some sa =>
      simp only [fillLoop, ha]
      by_cases h1 : strstr ifa.ifa_name "lo" = none
      · by_cases h2 : sa.sa_family = AF_INET
        · by_cases h3 : sa.nameinfo_res ≠ 0
          · simp only [if_pos h1, if_pos h2, if_pos h3]
            refine ⟨by simp, ?_⟩
            exact ⟨fun _ => ⟨ifa, List.mem_cons_self _ _, sa, ha, h1, h2, h3⟩, fun _ => by simp⟩
          · simp only [if_pos h1, if_pos h2, if_neg h3]
            refine ⟨(ih _).1, ?_⟩
            rw [(ih _).2]
            simp [ha, h3]
        · simp only [if_pos h1, if_neg h2]
          refine ⟨(ih _).1, ?_⟩
          rw [(ih _).2]
          simp [ha, h2]
      · simp only [if_neg h1]
        refine ⟨(ih _).1, ?_⟩
        rw [(ih _).2]
        simp [ha, h1]

theorem fillLoop_snd (l : List Ifaddr) (acc : List String) (h : (fillLoop l acc).1 ≠ -1)
    (ip : String) :
    ip ∈ (fillLoop l acc).2 ↔ ip ∈ acc ∨ ∃ ifa ∈ l, ∃ sa, ifa.ifa_addr = some sa ∧
      strstr ifa.ifa_name "lo" = none ∧ sa.sa_family = AF_INET ∧ sa.nameinfo_host = ip := by
  induction l generalizing acc with
  | nil => simp [fillLoop]
  | cons ifa rest ih =>
    cases ha : ifa.ifa_addr with
    | none =>
      simp only [fillLoop, ha] at h ⊢
      rw [ih acc h]
      simp [ha]
    | some sa =>
      simp only [fillLoop, ha] at h ⊢
      by_cases h1 : strstr ifa.ifa_name "lo" = none
      · by_cases h2 : sa.sa_family = AF_INET
        · by_cases h3 : sa.nameinfo_res ≠ 0
          · simp [if_pos h1, if_pos h2, if_pos h3] at h
          · simp only [if_pos h1, if_pos h2, if_neg h3] at h ⊢
            rw [ih _ h]
            simp only [List.mem_append, List.mem_singleton, List.mem_cons, exists_eq_or_imp,
              ha, Option.some.injEq, exists_eq_left', h1, h2, true_and, List.not_mem_nil,
              or_false]
            constructor
            · rintro ((h | h) | h)
              · exact Or.inl h
              · exact Or.inr (Or.inl h.symm)
              · exact Or.inr (Or.inr h)
            · rintro (h | h | h)
              · exact Or.inl (Or.inl h)
              · exact Or.inl (Or.inr h.symm)
              · exact Or.inr h
        · simp only [if_pos h1, if_neg h2] at h ⊢
          rw [ih _ h]
          simp [ha, h2]
      · simp only [if_neg h1] at h ⊢
        rw [ih _ h]
        simp [ha, h1]

theorem strstr_lo_eq_none_iff (name : String) :
    strstr name "lo" = none ↔ ¬ ['l', 'o'] <:+: name.toList := by
  unfold strstr
  rw [strstrList_eq_none_iff]
  rfl

/-- What `is_valid_ip` computes: it returns true if and only if `getifaddrs`
succeeds, `getnameinfo` succeeds on every interface that has an address, a
name not containing `lo` and family `AF_INET`, and `ip` is literally equal to
the numeric address string of one of these interfaces. -/
theorem is_valid_ip_iff (env : NetEnv) (st : CCLState) (ip : String) :
    (is_valid_ip env st ip).1 = true ↔
      0 ≤ env.getifaddrs_res ∧
      (∀ ifa ∈ env.ifaddrs, ∀ sa, ifa.ifa_addr = some sa →
        ¬ ['l', 'o'] <:+: ifa.ifa_name.toList → sa.sa_family = AF_INET →
        sa.nameinfo_res = 0) ∧
      ∃ ifa ∈ env.ifaddrs, ∃ sa, ifa.ifa_addr = some sa ∧
        ¬ ['l', 'o'] <:+: ifa.ifa_name.toList ∧ sa.sa_family = AF_INET ∧
        sa.nameinfo_host = ip := by
  simp only [← strstr_lo_eq_none_iff]
  unfold is_valid_ip fill_local_host_ip
  by_cases hg : env.getifaddrs_res < 0
  · simp only [if_pos hg]
    simp only [if_true, Bool.false_eq_true, false_iff]
    intro h
    exact absurd h.1 (not_le.mpr hg)
  · simp only [if_neg hg]
    have hfst := fillLoop_fst env.ifaddrs []
    by_cases hr : (fillLoop env.ifaddrs []).1 = -1
    · simp only [if_pos hr, if_true, Bool.false_eq_true, false_iff]
      rintro ⟨_, hall, _⟩
      obtain ⟨ifa, hifa, sa, ha, h1, h2, h3⟩ := hfst.2.mp hr
      exact h3 (hall ifa hifa sa ha h1 h2)
    · simp only [if_neg hr]
      have hsnd := fillLoop_snd env.ifaddrs [] hr
      have hall : ∀ ifa ∈ env.ifaddrs, ∀ sa, ifa.ifa_addr = some sa →
          strstr ifa.ifa_name "lo" = none → sa.sa_family = AF_INET → sa.nameinfo_res = 0 := by
        intro ifa hifa sa ha h1 h2
        by_contra h3
        exact hr (hfst.2.mpr ⟨ifa, hifa, sa, ha, h1, h2, h3⟩)
      by_cases he : (fillLoop env.ifaddrs []).2 = []
      · simp only [if_pos he, if_true, Bool.false_eq_true, false_iff]
        rintro ⟨_, _, hex⟩
        have := (hsnd ip).mpr (Or.inr hex)
        rw [he] at this
        exact List.not_mem_nil _ this
      · have hne : ¬ ((0 : Int) = -1) := by decide
        simp only [if_neg he, if_neg hne, List.any_eq_true, beq_iff_eq]
        constructor
        · rintro ⟨x, hx, rfl⟩
          refine ⟨not_lt.mp hg, hall, ?_⟩
          rcases (hsnd x).mp hx with h | h
          · exact absurd h (List.not_mem_nil _)
          · exact h
        · rintro ⟨_, _, hex⟩
          exact ⟨ip, (hsnd ip).mpr (Or.inr hex), rfl⟩

/-- C10 (candidate IP validation), the code at a failing input: the wireless
interface `wlo1` is an IPv4 interface that is not the loopback interface and
`getifaddrs` and `getnameinfo` succeed, yet `is_valid_ip` rejects its numeric
address, because the name `wlo1` contains `lo`. -/
theorem is_valid_ip_rejects_wireless :
    (is_valid_ip wirelessEnv CCLState.initial "192.168.1.7").1 = false ∧
    0 ≤ wirelessEnv.getifaddrs_res ∧
    (∃ ifa ∈ wirelessEnv.ifaddrs, ifa.ifa_name ≠ "lo" ∧
      ∃ sa, ifa.ifa_addr = some sa ∧ sa.sa_family = AF_INET ∧ sa.nameinfo_res = 0 ∧
        sa.nameinfo_host = "192.168.1.7") ∧
    strstr "wlo1" "lo" = some 1 := by
  refine ⟨by decide, by decide, ⟨⟨"wlo1", some ⟨AF_INET, 0, "192.168.1.7"⟩⟩, ?_, by decide,
    ⟨AF_INET, 0, "192.168.1.7"⟩, rfl, rfl, rfl, rfl⟩, by decide⟩
  simp [wirelessEnv]

/-! ## Communicator bootstrap -/

theorem toSizeT_of_nonneg (x : CInt) (h : 0 ≤ x.val) : ((toSizeT x.val : Nat) : Int) = x.val := by
  have hx := x.property
  simp only [toSizeT, SIZE_MOD]
  norm_num
  omega

theorem sizeToJlong_toSizeT (x : CInt) (h : 0 ≤ x.val) : sizeToJlong (toSizeT x.val) = x.val := by
  have hx := x.property
  have h1 := toSizeT_of_nonneg x h
  have h2 : toSizeT x.val < 2147483648 := by omega
  simp only [sizeToJlong, SIZE_MOD]
  norm_num
  split <;> omega

theorem getComm_push (st : CCLState) (c : Communicator) :
    ∃ comm, getComm { st with g_comms := st.g_comms ++ [c] } = some comm := by
  unfold getComm
  cases st.g_comms with
  | nil => exact ⟨c, rfl⟩
  | cons a l => exact ⟨a, by simp⟩

theorem is_valid_ip_g_comms (env : NetEnv) (st : CCLState) (ip : String) :
    (is_valid_ip env st ip).2.g_comms = st.g_comms := by
  unfold is_valid_ip fill_local_host_ip
  dsimp only
  split_ifs <;> rfl

theorem c_getAvailPort_g_comms (env : NetEnv) (st st2 : CCLState) (ip : String) (fuel : Nat)
    (v : Int) (h : c_getAvailPort env st ip fuel = some (v, st2)) :
    st2.g_comms = st.g_comms := by
  unfold c_getAvailPort at h
  have hg := is_valid_ip_g_comms env st ip
  dsimp only at h
  split_ifs at h
  · have := Option.some.inj h
    rw [← hg, ← (Prod.mk.inj this).2]
  · have := Option.some.inj h
    rw [← hg, ← (Prod.mk.inj this).2]
  · cases hq : probe (env.bind ip) fuel (3000 % PORT_MOD) with
    | none => simp [hq] at h
    | some q =>
      simp only [hq, Option.map_some'] at h
      have := Option.some.inj h
      rw [← hg, ← (Prod.mk.inj this).2]

/-- C5 (bootstrap result of `c_init`).  For `N ≥ 1` and `0 ≤ r < N`, when
`c_init(N, r, A)` is called in a state with no active communicator and the
library builds the key-value store for `A`, the call returns 1, `getComm` gives
the communicator just created, the caller's object receives `commSize = N` and
`rankId = r`, `rankID()` is `r` and `isRoot()` is true exactly when `r = 0`;
a port probe leaves the current communicator in place; and the matching
`c_cleanup` leads back to a state with no active communicator. -/
theorem init_bootstrap_result (lib : CclLib) (st : CCLState) (N r : CInt) (A : String)
    (param : JObject) (kvs : String)
    (hempty : st.g_comms = []) (hN : 1 ≤ N.val) (hr : 0 ≤ r.val) (hrN : r.val < N.val)
    (hkvs : lib.create_main_kvs A = some kvs) :
    (c_init lib st N r A param).ret = some 1 ∧
    getComm (c_init lib st N r A param).st = some { size := N, rank := r } ∧
    (c_init lib st N r A param).param "commSize" = some (JValue.long N.val) ∧
    (c_init lib st N r A param).param "rankId" = some (JValue.long r.val) ∧
    rankID (c_init lib st N r A param).st = some r.val ∧
    isRoot (c_init lib st N r A param).st = some (decide (r.val = 0)) ∧
    (∀ env ip fuel v st2,
      c_getAvailPort env (c_init lib st N r A param).st ip fuel = some (v, st2) →
      getComm st2 = some { size := N, rank := r }) ∧
    (c_cleanup (c_init lib st N r A param).st).map (fun s => s.g_comms) = some [] := by
  have hout : c_init lib st N r A param =
      { ret := some 1
        st := { local_host_ips := st.local_host_ips, comm_size := toSizeT N.val,
                rank_id := toSizeT r.val, g_comms := [{ size := N, rank := r }] }
        param := SetLongField (SetLongField param "commSize" (sizeToJlong (toSizeT N.val)))
          "rankId" (sizeToJlong (toSizeT r.val))
        calls := [CclCall.init, CclCall.create_main_kvs A,
          CclCall.create_communicator N.val r.val] } := by
    unfold c_init
    simp only [hkvs, hempty, getComm, create_communicator, List.nil_append]
    rfl
  rw [hout]
  have hN0 : 0 ≤ N.val := by omega
  refine ⟨rfl, rfl, ?_, ?_, rfl, rfl, ?_, ?_⟩
  · simp [SetLongField, sizeToJlong_toSizeT N hN0]
  · simp [SetLongField, sizeToJlong_toSizeT r hr]
  · intro env ip fuel v st2 h
    have := c_getAvailPort_g_comms env _ st2 ip fuel v h
    simp only [getComm, this]
    rfl
  · simp [c_cleanup]

/-- Witness of C5: rank 2 of a group of four, from the state at load time. -/
theorem init_bootstrap_result_witness :
    CCLState.initial.g_comms = [] ∧
    permissiveLib.create_main_kvs "10.0.0.1_3000" = some "10.0.0.1_3000" ∧
    rankID (c_init permissiveLib CCLState.initial (smallInt 4) (smallInt 2) "10.0.0.1_3000"
      sampleParam).st = some (smallInt 2).val :=
  ⟨rfl, rfl,
    (init_bootstrap_result permissiveLib CCLState.initial (smallInt 4) (smallInt 2)
      "10.0.0.1_3000" sampleParam "10.0.0.1_3000" rfl (by decide) (by decide) (by decide)
      rfl).2.2.2.2.1⟩

end OapMllib
